import Mathlib

/-!
Shallow embedding of the core of the vector-search research system
(HNSW index, tiered storage backend with LRU cache, SSD timing model,
ANN-in-SSD block simulator) together with proofs about the claims of
its specification.

Modelling conventions:
* C++ `float` values are modelled as exact rationals (`ℚ`).  All inputs
  appearing in concrete traces below are small dyadic rationals whose
  float arithmetic (dimension-1 squares, sums of at most a handful of
  exactly representable terms) is exact, so the rational model agrees
  with the float model on those traces.  `std::sqrt` (used only by the
  cosine branch of `compute_distance`) is not modelled bit-exactly; the
  functions take an abstract `sqrtFn : ℚ → ℚ` parameter for that branch.
* machine integers (`size_t`, `uint64_t`) are modelled as `ℕ`; the
  sentinel `std::numeric_limits<uint64_t>::max()` used for an unset
  entry point is the literal `U64MAX = 2^64 - 1`.  No arithmetic in the
  modelled code paths can overflow 64 bits for the inputs considered.
* fallible operations return `Option`/`Bool × state` pairs.
* the random layer assignment (`HNSW::assign_layer`, a thread-local
  mt19937_64) is modelled by passing the drawn level as an explicit
  argument, as the specification itself suggests for deterministic
  builds.
-/

namespace Spec2Proof

/-! ## Distance kernel — src/FinalProjects/TrackB/src/core/vector.hpp -/

/-- `VectorData`: ordered sequence of floats, modelled as rationals. -/
abbrev Vec := List ℚ

/-! The standard library marks `Rat.add`, `Rat.sub` and `Rat.mul`
`@[irreducible]`, so closed computations over them cannot be settled by
kernel reduction.  The distance kernel therefore uses the transparent
wrappers below, each proved equal to the corresponding field operation
(`qadd_eq`, `qsub_eq`, `qmul_eq` in the theorem section), so that every
concrete trace evaluates by `decide` while algebraic reasoning can
rewrite to the ordinary operations. -/

/-- Transparent rational addition (`= a + b`). -/
def qadd (a b : ℚ) : ℚ :=
  mkRat (a.num * (b.den : ℤ) + b.num * (a.den : ℤ)) (a.den * b.den)

/-- Transparent rational subtraction (`= a - b`). -/
def qsub (a b : ℚ) : ℚ :=
  mkRat (a.num * (b.den : ℤ) - b.num * (a.den : ℤ)) (a.den * b.den)

/-- Transparent rational multiplication (`= a * b`). -/
def qmul (a b : ℚ) : ℚ := mkRat (a.num * b.num) (a.den * b.den)

/-- Transparent sum of a list of rationals (`= l.sum`). -/
def qsum (l : List ℚ) : ℚ := l.foldr qadd 0

/-- `DistanceMetric` from vector.hpp (enum values 0, 1, 2). -/
inductive DistanceMetric : Type
  | L2
  | InnerProduct
  | Cosine
deriving DecidableEq, Repr, Inhabited

/-- `l2_distance_squared(a, b, dim)`: sum of squared component
differences (scalar path of vector.hpp lines 53-60; the AVX2 path
computes the same sum in a different association, which is identical
over exact arithmetic). -/
def l2_distance_squared (a b : Vec) : ℚ :=
  qsum (List.zipWith (fun x y => qmul (qsub x y) (qsub x y)) a b)

/-- `inner_product(a, b, dim)` from vector.hpp lines 65-71. -/
def inner_product (a b : Vec) : ℚ :=
  qsum (List.zipWith (fun x y => qmul x y) a b)

/-- `cosine_similarity(a, b, dim)` from vector.hpp lines 74-79.  The
float `std::sqrt` is abstracted by `sqrtFn`. -/
def cosine_similarity (sqrtFn : ℚ → ℚ) (a b : Vec) : ℚ :=
  inner_product a b /
    (sqrtFn (inner_product a a) * sqrtFn (inner_product b b) + 1 / 100000000)

/-- `compute_distance(a, b, dim, metric)` from vector.hpp lines 82-93. -/
def compute_distance (sqrtFn : ℚ → ℚ) (m : DistanceMetric) (a b : Vec) : ℚ :=
  match m with
  | DistanceMetric.L2 => l2_distance_squared a b
  | DistanceMetric.InnerProduct => -(inner_product a b)
  | DistanceMetric.Cosine => -(cosine_similarity sqrtFn a b)

/-! ## IOStats — src/src/storage/io_stats.hpp -/

/-- `IOStats` counters. -/
structure IOStats : Type where
  num_reads : ℕ := 0
  num_writes : ℕ := 0
  bytes_read : ℕ := 0
  bytes_written : ℕ := 0
  total_read_latency_us : ℚ := 0
  total_write_latency_us : ℚ := 0
deriving DecidableEq, Repr, Inhabited

/-! ## SSD simulator — src/src/simulator/ssd_simulator.hpp -/

/-- `SsdDeviceConfig` (ssd_simulator.hpp lines 11-16). -/
structure SsdDeviceConfig : Type where
  num_channels : ℕ := 0
  queue_depth_per_channel : ℕ := 0
  base_read_latency_us : ℚ := 0
  internal_read_bandwidth_GBps : ℚ := 0
deriving DecidableEq, Repr, Inhabited

/-- `SsdSimulator` state. -/
structure SsdSimulator : Type where
  config : SsdDeviceConfig
  io_stats : IOStats := {}
  total_time_us : ℚ := 0
deriving DecidableEq, Repr, Inhabited

/-- `SsdSimulator::record_read(bytes)` (ssd_simulator.hpp lines 30-50). -/
def SsdSimulator.record_read (sim : SsdSimulator) (bytes : ℕ) : SsdSimulator :=
  let st := { sim.io_stats with
                num_reads := sim.io_stats.num_reads + 1
                bytes_read := sim.io_stats.bytes_read + bytes }
  let bw_bytes_per_us : ℚ :=
    if 0 < sim.config.internal_read_bandwidth_GBps then
      sim.config.internal_read_bandwidth_GBps * 1000000000 / 1000000
    else 0
  let t_us : ℚ :=
    if 0 < bw_bytes_per_us then
      sim.config.base_read_latency_us + (bytes : ℚ) / bw_bytes_per_us
    else sim.config.base_read_latency_us
  let parallel : ℕ :=
    let p := sim.config.num_channels * sim.config.queue_depth_per_channel
    if p = 0 then 1 else p
  { sim with io_stats := st, total_time_us := sim.total_time_us + t_us / (parallel : ℚ) }

/-! ## Memory backend — src/FinalProjects/TrackB/src/storage/memory_backend.cpp -/

/-- Grow a list to length at least `n`, padding with `pad` (models
`std::vector::resize` in the growing direction, the only direction the
modelled code uses). -/
def growTo (l : List α) (n : ℕ) (pad : α) : List α :=
  l ++ List.replicate (n - l.length) pad

/-- `MemoryBackend` state: dense storage plus presence bits. -/
structure MemoryBackend : Type where
  data : List Vec := []
  present : List Bool := []
  stats : IOStats := {}
deriving DecidableEq, Repr, Inhabited

/-- `MemoryBackend::read_node` (memory_backend.cpp lines 5-15).  Returns
the payload (`none` models returning `false`) and the updated state. -/
def MemoryBackend.read_node (st : MemoryBackend) (id : ℕ) :
    Option Vec × MemoryBackend :=
  if id < st.data.length ∧ id < st.present.length ∧ st.present.getD id false = true then
    let out := st.data.getD id []
    (some out,
      { st with stats := { st.stats with
          num_reads := st.stats.num_reads + 1
          bytes_read := st.stats.bytes_read + out.length * 4 } })
  else (none, st)

/-- `MemoryBackend::write_node` (memory_backend.cpp lines 17-29).  Note:
there is no dimension check; the write always succeeds. -/
def MemoryBackend.write_node (st : MemoryBackend) (id : ℕ) (data : Vec) :
    Bool × MemoryBackend :=
  let d := if st.data.length ≤ id then growTo st.data (id + 1) [] else st.data
  let p := if st.data.length ≤ id then growTo st.present (id + 1) false else st.present
  (true,
    { st with
        data := d.set id data
        present := p.set id true
        stats := { st.stats with
          num_writes := st.stats.num_writes + 1
          bytes_written := st.stats.bytes_written + data.length * 4 } })

/-- Fold a list of `(id, payload)` writes into a fresh memory backend. -/
def MemoryBackend.runWrites (ops : List (ℕ × Vec)) : MemoryBackend :=
  ops.foldl (fun st p => (st.write_node p.1 p.2).2) {}

/-! ## File backend — src/FinalProjects/TrackB/src/storage/file_backend.cpp

The filesystem is outside the repository; stream outcomes are modelled
as an explicit environment, and `write_node` additionally reports the
slot write it performed (if any) so that "stores nothing" is statable. -/

/-- Outcomes of the stream operations performed by one
`FileBackend::read_node` call: whether the `ifstream` opened, whether
the seek left the stream good, and the payload the final `read`
produced (`none` models a failed read). -/
structure FileReadEnv : Type where
  open_ok : Bool
  seek_ok : Bool
  read_result : Option Vec
deriving DecidableEq, Repr, Inhabited

/-- Outcomes of the stream operations performed by one
`FileBackend::write_node` call. -/
structure FileWriteEnv : Type where
  open_ok : Bool
  seek_ok : Bool
  write_ok : Bool
deriving DecidableEq, Repr, Inhabited

/-- `FileBackend` state owned by the object itself (path omitted: it is
only used to open streams, which the environment models). -/
structure FileBackend : Type where
  dim : ℕ
  stats : IOStats := {}
deriving DecidableEq, Repr, Inhabited

/-- `FileBackend::read_node` (file_backend.cpp lines 10-37).  The
`node_id` argument only determines the seek offset, whose outcome the
environment models. -/
def FileBackend.read_node (env : FileReadEnv) (st : FileBackend)
    (node_id : ℕ) : Option Vec × FileBackend :=
  if st.dim = 0 then (none, st)
  else if env.open_ok = false then (none, st)
  else if env.seek_ok = false then (none, st)
  else
    match env.read_result with
    | none => (none, st)
    | some out =>
      (some out,
        { st with stats := { st.stats with
            num_reads := st.stats.num_reads + 1
            bytes_read := st.stats.bytes_read + st.dim * 4 } })

/-- `FileBackend::write_node` (file_backend.cpp lines 39-77).  The third
component is the slot write issued to the file, `none` when the call
returned before writing. -/
def FileBackend.write_node (env : FileWriteEnv) (st : FileBackend)
    (id : ℕ) (data : Vec) : Bool × FileBackend × Option (ℕ × Vec) :=
  let st := if st.dim = 0 then { st with dim := data.length } else st
  if data.length ≠ st.dim then (false, st, none)
  else if env.open_ok = false then (false, st, none)
  else if env.seek_ok = false then (false, st, none)
  else if env.write_ok = false then (false, st, none)
  else
    (true,
      { st with stats := { st.stats with
          num_writes := st.stats.num_writes + 1
          bytes_written := st.stats.bytes_written + st.dim * 4 } },
      some (id, data))

/-! ## LRU cache policy — src/src/tiered/cache_policy.cpp

The `std::list` plus iterator map is modelled as a single duplicate-free
list of keys, front = most recently used; membership in the list models
membership in `map_`. -/

/-- `LRUCachePolicy` state. -/
structure LRUCachePolicy : Type where
  capacity : ℕ
  lru_list : List ℕ := []
deriving DecidableEq, Repr, Inhabited

/-- `LRUCachePolicy::record_access` (cache_policy.cpp lines 8-14):
splice a present key to the front, no-op for an absent key. -/
def LRUCachePolicy.record_access (p : LRUCachePolicy) (id : ℕ) : LRUCachePolicy :=
  if id ∈ p.lru_list then { p with lru_list := id :: p.lru_list.erase id } else p

/-- `LRUCachePolicy::on_insert` (cache_policy.cpp lines 16-41).  Returns
the evicted key, if any, and the new policy state.  The `lru_list.back()`
call can only execute with a non-empty list (capacity ≥ 1 ≤ size); the
empty-list fallback is unreachable. -/
def LRUCachePolicy.on_insert (p : LRUCachePolicy) (id : ℕ) :
    Option ℕ × LRUCachePolicy :=
  if p.capacity = 0 then (none, p)
  else if id ∈ p.lru_list then (none, p.record_access id)
  else if p.capacity ≤ p.lru_list.length then
    match p.lru_list.getLast? with
    | some victim => (some victim, { p with lru_list := id :: p.lru_list.dropLast })
    | none => (none, { p with lru_list := [id] })
  else (none, { p with lru_list := id :: p.lru_list })

/-- `LRUCachePolicy::erase` (cache_policy.cpp lines 43-50). -/
def LRUCachePolicy.eraseKey (p : LRUCachePolicy) (id : ℕ) : LRUCachePolicy :=
  if id ∈ p.lru_list then { p with lru_list := p.lru_list.erase id } else p

/-! ## Tiered backend — src/src/storage/tiered_backend.cpp

The cache `unordered_map` is modelled as an association list with unique
keys.  The backing backend is polymorphic in C++; the tiered read path
takes the backing call's outcome as an argument (`none` = no backing
attached, `some none` = backing read failed, `some (some v)` = success),
and the measured latency of that call as `us`.  The claims exercised
against this model use the LRU policy, so `policy` is
`Option LRUCachePolicy` (`none` models the null policy pointer used when
the capacity is zero). -/

/-- `TieredBackend` state. -/
structure TieredBackend : Type where
  cache_capacity : ℕ
  cache : List (ℕ × Vec) := []
  policy : Option LRUCachePolicy := none
  stats : IOStats := {}
  cache_hits : ℕ := 0
  cache_misses : ℕ := 0
  ssd_sim : Option SsdSimulator := none
deriving DecidableEq, Repr, Inhabited

/-- Constructor (tiered_backend.cpp lines 7-23) specialised to the LRU
policy (the default for any policy name other than "lfu"). -/
def TieredBackend.mkLRU (capacity : ℕ) : TieredBackend :=
  { cache_capacity := capacity
    policy := if capacity = 0 then none else some { capacity := capacity } }

/-- `TieredBackend::device_time_us` (tiered_backend.cpp lines 43-49). -/
def TieredBackend.device_time_us (st : TieredBackend) : ℚ :=
  match st.ssd_sim with
  | none => 0
  | some sim => sim.total_time_us

/-- `TieredBackend::insert_into_cache` (tiered_backend.cpp lines 67-88). -/
def TieredBackend.insert_into_cache (st : TieredBackend) (id : ℕ) (data : Vec) :
    TieredBackend :=
  match st.policy with
  | none => st
  | some pol =>
    if st.cache_capacity = 0 then st
    else if (List.lookup id st.cache).isSome then
      { st with
          cache := st.cache.map (fun e => if e.1 = id then (id, data) else e)
          policy := some (pol.record_access id) }
    else
      let (evicted, pol') := pol.on_insert id
      let cache' :=
        match evicted with
        | some victim => st.cache.eraseP (fun e => e.1 == victim)
        | none => st.cache
      { st with cache := (id, data) :: cache', policy := some pol' }

/-- `TieredBackend::read_node` (tiered_backend.cpp lines 90-130).
`backing` is the outcome of the `backing_->read_node` call (see the
section comment) and `us` the measured latency of that call. -/
def TieredBackend.read_node (st : TieredBackend) (id : ℕ)
    (backing : Option (Option Vec)) (us : ℚ) : Option Vec × TieredBackend :=
  match List.lookup id st.cache with
  | some data =>
    (some data,
      { st with
          policy := st.policy.map (fun p => p.record_access id)
          cache_hits := st.cache_hits + 1 })
  | none =>
    match backing with
    | none => (none, st)
    | some none => (none, st)
    | some (some data) =>
      let bytes := data.length * 4
      let st' :=
        { st with
            stats := { st.stats with
              num_reads := st.stats.num_reads + 1
              bytes_read := st.stats.bytes_read + bytes
              total_read_latency_us := st.stats.total_read_latency_us + us }
            ssd_sim := st.ssd_sim.map (fun s => SsdSimulator.record_read s bytes)
            cache_misses := st.cache_misses + 1 }
      (some data, st'.insert_into_cache id data)

/-- One tiered read against a `MemoryBackend` backing store: the cache
is consulted first; only on a miss is `MemoryBackend::read_node` called
(whose latency the trace model takes as 0 µs — the latency value plays
no role in the cache-behaviour claims). -/
def tieredMemRead (st : TieredBackend × MemoryBackend) (id : ℕ) :
    TieredBackend × MemoryBackend :=
  match List.lookup id st.1.cache with
  | some _ => ((st.1.read_node id none 0).2, st.2)
  | none =>
    let (r, mem') := st.2.read_node id
    ((st.1.read_node id (some r) 0).2, mem')

/-- Run a sequence of tiered reads. -/
def tieredMemReads (st : TieredBackend × MemoryBackend) (ids : List ℕ) :
    TieredBackend × MemoryBackend :=
  ids.foldl tieredMemRead st

/-! ## HNSW index — src/FinalProjects/TrackB/src/ann/hnsw.cpp

The priority queues of `search_layer` are modelled as lists kept sorted
ascending by distance (new elements are inserted after existing equal
keys); the min-heap's top is the head, the max-heap's top is the last
element.  The C++ heaps leave the relative order of equal distances
unspecified; every concrete trace proved below has pairwise distinct
distances at each comparison, so this rendering agrees with any heap
implementation there, and the universal theorems do not depend on the
order.  The epoch-tagged visited array is modelled as the set (list) of
visited ids. -/

/-- `std::numeric_limits<uint64_t>::max()`, the unset-entry-point
sentinel. -/
def U64MAX : ℕ := 2 ^ 64 - 1

/-- `HNSW::Node` (hnsw.hpp lines 43-46).  `std::vector::resize`
value-initialises, so a default node has `id = 0` and no layers. -/
structure HNode : Type where
  id : ℕ := 0
  neighbors : List (List ℕ) := []
deriving DecidableEq, Repr, Inhabited

/-- The `HNSW` fields that the modelled member functions read or write
(scratch buffers, mutexes and instrumentation counters omitted). -/
structure HNSW : Type where
  dim : ℕ
  M : ℕ
  ef_construction : ℕ
  metric : DistanceMetric
  vectors : List Vec := []
  nodes : List HNode := []
  entry_point : ℕ := U64MAX
  max_layer : ℕ := 0
deriving DecidableEq, Repr, Inhabited

/-- `nodes_[i]` (reads in the modelled paths are always in range). -/
def getNode (g : HNSW) (i : ℕ) : HNode := g.nodes.getD i {}

/-- `nodes_[i].neighbors[l]`, empty when the layer is not allocated. -/
def nbrsAt (g : HNSW) (i l : ℕ) : List ℕ := (getNode g i).neighbors.getD l []

/-- Replace the layer-`l` adjacency of a node. -/
def setLayerList (n : HNode) (l : ℕ) (lst : List ℕ) : HNode :=
  { n with neighbors := n.neighbors.set l lst }

/-- `node.neighbors.resize(k)` in the growing direction. -/
def growLayersTo (n : HNode) (k : ℕ) : HNode :=
  { n with neighbors := growTo n.neighbors k [] }

/-- Distance from a query buffer to the stored vector of id `i`
(`compute_distance(query, vectors_[i].data(), dim_, metric_)`). -/
def distQ (sqrtFn : ℚ → ℚ) (g : HNSW) (q : Vec) (i : ℕ) : ℚ :=
  compute_distance sqrtFn g.metric q (g.vectors.getD i [])

/-- Insert into a distance-sorted list, after existing equal keys. -/
def insSorted (x : ℚ × ℕ) : List (ℚ × ℕ) → List (ℚ × ℕ)
  | [] => [x]
  | y :: ys => if x.1 < y.1 then x :: y :: ys else y :: insSorted x ys

/-- `top_candidates.top().first`: the largest distance in the top list
(the list is never empty when this is read; 0 is a dead default). -/
def topMaxD (top : List (ℚ × ℕ)) : ℚ :=
  match top.getLast? with
  | some t => t.1
  | none => 0

/-- One neighbour visit inside the expansion loop of `search_layer`
(hnsw.cpp lines 445-459): skip if visited, mark, compute the distance,
and admit into both queues when the top heap is not full or the
candidate improves on its maximum, evicting the maximum on overflow. -/
def expandStep (sqrtFn : ℚ → ℚ) (g : HNSW) (q : Vec) (ef : ℕ)
    (st : List (ℚ × ℕ) × List (ℚ × ℕ) × List ℕ) (nb : ℕ) :
    List (ℚ × ℕ) × List (ℚ × ℕ) × List ℕ :=
  let (cand, top, vis) := st
  if nb ∈ vis then st
  else
    let vis' := nb :: vis
    let d := distQ sqrtFn g q nb
    if top.length < ef ∨ d < topMaxD top then
      let top' := insSorted (d, nb) top
      let top'' := if ef < top'.length then top'.dropLast else top'
      (insSorted (d, nb) cand, top'', vis')
    else (cand, top, vis')

/-- Main loop of `search_layer` (hnsw.cpp lines 430-460), fuelled: each
iteration pops one candidate, and the number of candidate-queue pushes
is bounded by 1 plus the number of fresh visited marks, itself bounded
by the total adjacency size plus one, so the fuel chosen by
`searchLayer` below can never run out. -/
def searchLayerGo (sqrtFn : ℚ → ℚ) (g : HNSW) (q : Vec) (layer ef : ℕ) :
    ℕ → List (ℚ × ℕ) → List (ℚ × ℕ) → List ℕ → List (ℚ × ℕ)
  | 0, _, top, _ => top
  | Nat.succ fuel, cand, top, vis =>
    match cand with
    | [] => top
    | c :: rest =>
      if topMaxD top < c.1 then top
      else
        let node := getNode g c.2
        if node.neighbors.length ≤ layer then
          searchLayerGo sqrtFn g q layer ef fuel rest top vis
        else
          let st := (node.neighbors.getD layer []).foldl
            (expandStep sqrtFn g q ef) (rest, top, vis)
          searchLayerGo sqrtFn g q layer ef fuel st.1 st.2.1 st.2.2

/-- Fuel that dominates every possible number of loop iterations. -/
def searchFuel (g : HNSW) : ℕ :=
  g.vectors.length + (g.nodes.map (fun n => (n.neighbors.map List.length).sum)).sum + 2

/-- `HNSW::search_layer(query, entry_point, ef, layer)` (hnsw.cpp lines
395-475), returning `(id, distance)` pairs sorted ascending by
distance.  `search_layer_parallel` (lines 477-562) performs the same
algorithm (its extra node-mutex acquisitions and thread-local visited
buffer do not change the result computed from a fixed graph), so the
parallel model below reuses this function. -/
def searchLayer (sqrtFn : ℚ → ℚ) (g : HNSW) (q : Vec) (ep ef layer : ℕ) :
    List (ℕ × ℚ) :=
  if g.vectors.isEmpty ∨ ep = U64MAX then []
  else
    let d0 := distQ sqrtFn g q ep
    let res := searchLayerGo sqrtFn g q layer ef (searchFuel g) [(d0, ep)] [(d0, ep)] [ep]
    res.map (fun p => (p.2, p.1))

/-- The acceptance test of the heuristic selector (hnsw.cpp lines
95-104): a candidate `cid` at query-distance `dqc` is good when no
already-accepted `sid` is strictly closer to it than the query is. -/
def heuristicGood (sqrtFn : ℚ → ℚ) (g : HNSW) (acc : List ℕ) (cid : ℕ) (dqc : ℚ) : Bool :=
  acc.all fun sid =>
    ! decide (compute_distance sqrtFn g.metric
        (g.vectors.getD sid []) (g.vectors.getD cid []) < dqc)

/-- First pass of `select_neighbors_heuristic` (hnsw.cpp lines 91-112). -/
def selectPhase1 (sqrtFn : ℚ → ℚ) (g : HNSW) (max_keep : ℕ) :
    List (ℕ × ℚ) → List ℕ → List ℕ
  | [], acc => acc
  | c :: rest, acc =>
    if max_keep ≤ acc.length then acc
    else if heuristicGood sqrtFn g acc c.1 c.2 then
      selectPhase1 sqrtFn g max_keep rest (acc ++ [c.1])
    else selectPhase1 sqrtFn g max_keep rest acc

/-- Fill pass of `select_neighbors_heuristic` (hnsw.cpp lines 114-124). -/
def selectPhase2 (max_keep : ℕ) : List (ℕ × ℚ) → List ℕ → List ℕ
  | [], acc => acc
  | c :: rest, acc =>
    if max_keep ≤ acc.length then acc
    else if c.1 ∈ acc then selectPhase2 max_keep rest acc
    else selectPhase2 max_keep rest (acc ++ [c.1])

/-- `HNSW::select_neighbors_heuristic(candidates, M, query)` (hnsw.cpp
lines 71-127).  The `query` argument is unused in the source
(`(void)query`) and is therefore not a parameter here.  `std::sort` on
distances is rendered as a stable insertion sort; no trace below
compares equal distances. -/
def select_neighbors_heuristic (sqrtFn : ℚ → ℚ) (g : HNSW)
    (candidates : List (ℕ × ℚ)) (M : ℕ) : List ℕ :=
  if candidates.isEmpty ∨ M = 0 then []
  else
    let sorted := candidates.insertionSort (fun a b => a.2 ≤ b.2)
    let max_keep := min M sorted.length
    selectPhase2 max_keep sorted (selectPhase1 sqrtFn g max_keep sorted [])

/-- The per-layer degree cap: `2·M` at layer 0, `M` above. -/
def layerCap (M l : ℕ) : ℕ := if l = 0 then 2 * M else M

/-- `node.neighbors[l].push_back(neighbor_id)` on the inserting node
(hnsw.cpp line 257). -/
def pushSelfNeighbor (g : HNSW) (id l nb : ℕ) : HNSW :=
  let n := getNode g id
  let n' := setLayerList n l (n.neighbors.getD l [] ++ [nb])
  { g with nodes := g.nodes.set id n' }

/-- Symmetric edge insertion into a chosen neighbour, with re-pruning
when the neighbour's list exceeds its cap (hnsw.cpp lines 259-279;
the parallel variant lines 360-381 has the identical body under the
neighbour's mutex). -/
def neighborSymmetricUpdate (sqrtFn : ℚ → ℚ) (g : HNSW) (id l nb : ℕ) : HNSW :=
  let nbn := getNode g nb
  let nbn := if nbn.neighbors.length ≤ l then growLayersTo nbn (l + 1) else nbn
  let lst := nbn.neighbors.getD l [] ++ [id]
  let capL := layerCap g.M l
  let lst' :=
    if capL < lst.length then
      let vref := g.vectors.getD nb []
      select_neighbors_heuristic sqrtFn g
        (lst.map fun nid =>
          (nid, compute_distance sqrtFn g.metric vref (g.vectors.getD nid [])))
        capL
    else lst
  { g with nodes := g.nodes.set nb (setLayerList nbn l lst') }

/-- One iteration of the serial connect loop body for a single chosen
neighbour (hnsw.cpp lines 256-280): push onto the self list, then
update the neighbour symmetrically. -/
def connectOneNeighbor (sqrtFn : ℚ → ℚ) (g : HNSW) (id l nb : ℕ) : HNSW :=
  neighborSymmetricUpdate sqrtFn (pushSelfNeighbor g id l nb) id l nb

/-- Allocate layer `l` on the inserting node if missing (hnsw.cpp lines
252-254). -/
def ensureSelfLayer (g : HNSW) (id l : ℕ) : HNSW :=
  let n := getNode g id
  let n' := if n.neighbors.length ≤ l then growLayersTo n (l + 1) else n
  { g with nodes := g.nodes.set id n' }

/-- Serial processing of one connect layer (hnsw.cpp lines 244-281):
bounded search, heuristic selection, then per-neighbour connection. -/
def processLayerSerial (sqrtFn : ℚ → ℚ) (g : HNSW) (id : ℕ) (vec : Vec)
    (ep l : ℕ) : HNSW :=
  let candidates := searchLayer sqrtFn g vec ep g.ef_construction l
  let neigh := select_neighbors_heuristic sqrtFn g candidates (layerCap g.M l)
  let g := ensureSelfLayer g id l
  neigh.foldl (fun g nb => connectOneNeighbor sqrtFn g id l nb) g

/-- The layers `fromL, fromL-1, …, toL+1`, empty when `fromL ≤ toL`. -/
def descendLayers (fromL toL : ℕ) : List ℕ :=
  (List.range' (toL + 1) (fromL - toL)).reverse

/-- Greedy beam-1 descent over the upper layers (hnsw.cpp lines
232-240): at each layer run `search_layer` with `ef = 1` and step to
its best id when non-empty. -/
def greedyDescend (sqrtFn : ℚ → ℚ) (g : HNSW) (vec : Vec) (ep fromL toL : ℕ) : ℕ :=
  (descendLayers fromL toL).foldl
    (fun ep l =>
      match searchLayer sqrtFn g vec ep 1 l with
      | [] => ep
      | r :: _ => r.1) ep

/-- `HNSW::insert_node(id, vec)` (hnsw.cpp lines 212-288) with the
randomly drawn layer passed explicitly as `level`. -/
def insert_node (sqrtFn : ℚ → ℚ) (g : HNSW) (id level : ℕ) : HNSW :=
  let vec := g.vectors.getD id []
  let g := if g.nodes.length ≤ id then { g with nodes := growTo g.nodes (id + 1) {} } else g
  let n0 := { getNode g id with id := id }
  let n1 := if n0.neighbors.length < level + 1 then growLayersTo n0 (level + 1) else n0
  let g := { g with nodes := g.nodes.set id n1 }
  if g.entry_point = U64MAX then { g with entry_point := id, max_layer := level }
  else
    let ep := greedyDescend sqrtFn g vec g.entry_point g.max_layer level
    let top := min g.max_layer level
    let g := ((List.range (top + 1)).reverse).foldl
      (fun g l => processLayerSerial sqrtFn g id vec ep l) g
    if g.max_layer < level then { g with max_layer := level, entry_point := id } else g

/-- `HNSW::reset_for_build(data)` (hnsw.cpp lines 129-139) together
with the constructor parameters. -/
def resetForBuild (dim M efc : ℕ) (metric : DistanceMetric) (data : List Vec) : HNSW :=
  { dim := dim, M := M, ef_construction := efc, metric := metric,
    vectors := data, nodes := List.replicate data.length {},
    entry_point := U64MAX, max_layer := 0 }

/-- `HNSW::build(data)` (hnsw.cpp lines 141-164): serial insertion of
ids `0..N-1`; `levels` supplies the per-id layer draw of
`assign_layer`. -/
def buildHNSW (sqrtFn : ℚ → ℚ) (dim M efc : ℕ) (metric : DistanceMetric)
    (data : List Vec) (levels : List ℕ) : HNSW :=
  (List.range data.length).foldl
    (fun g id => insert_node sqrtFn g id (levels.getD id 0))
    (resetForBuild dim M efc metric data)

/-- `HNSW::search(query, k, ef_search)` (hnsw.cpp lines 564-593). -/
def searchH (sqrtFn : ℚ → ℚ) (g : HNSW) (q : Vec) (k ef_search : ℕ) : List ℕ :=
  if g.vectors.isEmpty ∨ g.entry_point = U64MAX then []
  else
    let ep := greedyDescend sqrtFn g q g.entry_point g.max_layer 0
    let res0 := searchLayer sqrtFn g q ep ef_search 0
    if res0.isEmpty then []
    else (res0.take (min k res0.length)).map (fun p => p.1)

/-! ### Parallel insertion — `HNSW::insert_node_parallel` (hnsw.cpp lines 290-393)

The function is decomposed into the pieces delimited by its lock
boundaries, and `parInsert` is their sequential composition (what one
thread performs when it runs without interruption).  A legal
interleaving of `build_parallel` may run other threads' complete
operations between any two of these pieces, because no lock is held
across the gaps; the counterexample trace for the degree-cap claim is
built from exactly these pieces. -/

/-- Lines 298-305: under the self mutex, set the node id and allocate
its layers.  (`nodes_` is pre-sized by `reset_for_build`.) -/
def parNodeInit (g : HNSW) (id level : ℕ) : HNSW :=
  let n0 := { getNode g id with id := id }
  let n1 := if n0.neighbors.length < level + 1 then growLayersTo n0 (level + 1) else n0
  { g with nodes := g.nodes.set id n1 }

/-- Lines 339-343: bounded search at layer `l` followed by heuristic
selection, computed without holding any lock. -/
def parSelectAtLayer (sqrtFn : ℚ → ℚ) (g : HNSW) (vec : Vec) (ep l : ℕ) : List ℕ :=
  select_neighbors_heuristic sqrtFn g
    (searchLayer sqrtFn g vec ep g.ef_construction l) (layerCap g.M l)

/-- Lines 345-356: under the self mutex, allocate layer `l` if missing
and append every chosen neighbour id to the self list.  Unlike the
neighbour-side update, this append is not followed by a prune. -/
def parSelfAppend (g : HNSW) (id l : ℕ) (neigh : List ℕ) : HNSW :=
  let n := getNode g id
  let n := if n.neighbors.length ≤ l then growLayersTo n (l + 1) else n
  let n' := setLayerList n l (n.neighbors.getD l [] ++ neigh)
  { g with nodes := g.nodes.set id n' }

/-- Lines 345-382: the self append followed by the per-neighbour
symmetric updates, each taken under that neighbour's mutex. -/
def parConnectAtLayer (sqrtFn : ℚ → ℚ) (g : HNSW) (id l : ℕ) (neigh : List ℕ) : HNSW :=
  neigh.foldl (fun g nb => neighborSymmetricUpdate sqrtFn g id l nb)
    (parSelfAppend g id l neigh)

/-- Lines 338-383: one full connect-layer iteration. -/
def parProcessLayer (sqrtFn : ℚ → ℚ) (g : HNSW) (id : ℕ) (vec : Vec) (ep l : ℕ) : HNSW :=
  parConnectAtLayer sqrtFn g id l (parSelectAtLayer sqrtFn g vec ep l)

/-- Lines 385-392: entry-point update, double-checked under the global
mutex against the snapshot `cur_max` read at the start. -/
def parEntryUpdate (g : HNSW) (id level cur_max : ℕ) : HNSW :=
  if cur_max < level then
    if g.max_layer < level then { g with max_layer := level, entry_point := id } else g
  else g

/-- `HNSW::insert_node_parallel(id, vec, …)` run without interruption:
node init, snapshot of `(entry_point, max_layer)`, greedy descent,
connect layers from `min(cur_max, level)` down to 0, entry update. -/
def parInsert (sqrtFn : ℚ → ℚ) (g : HNSW) (id level : ℕ) : HNSW :=
  let vec := g.vectors.getD id []
  let g := parNodeInit g id level
  let ep0 := g.entry_point
  let cur_max := g.max_layer
  if ep0 = U64MAX then { g with entry_point := id, max_layer := level }
  else
    let ep := greedyDescend sqrtFn g vec ep0 cur_max level
    let top := min cur_max level
    let g := ((List.range (top + 1)).reverse).foldl
      (fun g l => parProcessLayer sqrtFn g id vec ep l) g
    parEntryUpdate g id level cur_max

/-! ### Save/load — `HNSW::save` / `HNSW::load` (hnsw.cpp lines 608-735)

The binary stream is modelled as a list of typed tokens: each
fixed-width little-endian field the code writes or reads becomes one
token, in the same order.  `save` emits tokens; `load` parses them,
failing (`none`) exactly where the C++ code checks `if (!in) return
false`, and ignoring trailing tokens just as the C++ code ignores
trailing bytes. -/

/-- One fixed-width field of the save stream. -/
inductive Tok : Type
  | u64 : ℕ → Tok
  | i32 : ℤ → Tok
  | f32 : ℚ → Tok
deriving DecidableEq, Repr

/-- `static_cast<int32_t>(metric_)`: enum tag values 0, 1, 2. -/
def metricTag : DistanceMetric → ℤ
  | DistanceMetric.L2 => 0
  | DistanceMetric.InnerProduct => 1
  | DistanceMetric.Cosine => 2

/-- `static_cast<DistanceMetric>(metric_val)`.  Tags other than 0, 1, 2
are never produced by `save`; the catch-all mirrors the unchecked cast
landing on an arbitrary enum value. -/
def tagToMetric : ℤ → DistanceMetric
  | 1 => DistanceMetric.InnerProduct
  | 2 => DistanceMetric.Cosine
  | _ => DistanceMetric.L2

/-- Tokens of one adjacency list: degree then the ids. -/
def layerToks (lst : List ℕ) : List Tok :=
  Tok.u64 lst.length :: lst.map Tok.u64

/-- Tokens of one node: id, layer count, then each layer. -/
def nodeToks (n : HNode) : List Tok :=
  Tok.u64 n.id :: Tok.u64 n.neighbors.length :: n.neighbors.flatMap layerToks

/-- `HNSW::save` (lines 608-653) as a token stream. -/
def hnswSave (g : HNSW) : List Tok :=
  [Tok.u64 g.dim, Tok.u64 g.M, Tok.u64 g.ef_construction,
   Tok.i32 (metricTag g.metric), Tok.u64 g.entry_point, Tok.u64 g.max_layer,
   Tok.u64 g.vectors.length] ++
  g.vectors.flatMap (fun v => v.map Tok.f32) ++
  (Tok.u64 g.nodes.length :: g.nodes.flatMap nodeToks)

/-- Read one u64 field. -/
def readU64 : List Tok → Option (ℕ × List Tok)
  | Tok.u64 n :: r => some (n, r)
  | _ => none

/-- Read one i32 field. -/
def readI32 : List Tok → Option (ℤ × List Tok)
  | Tok.i32 n :: r => some (n, r)
  | _ => none

/-- Read one float field. -/
def readF32 : List Tok → Option (ℚ × List Tok)
  | Tok.f32 q :: r => some (q, r)
  | _ => none

/-- Read `dim` floats (one vector payload). -/
def readFloats : ℕ → List Tok → Option (Vec × List Tok)
  | 0, r => some ([], r)
  | Nat.succ k, toks =>
    match readF32 toks with
    | none => none
    | some (x, r) =>
      match readFloats k r with
      | none => none
      | some (v, r') => some (x :: v, r')

/-- Read `count` vectors of `dim` floats each. -/
def readVectors : ℕ → ℕ → List Tok → Option (List Vec × List Tok)
  | 0, _, r => some ([], r)
  | Nat.succ k, dim, toks =>
    match readFloats dim toks with
    | none => none
    | some (v, r) =>
      match readVectors k dim r with
      | none => none
      | some (vs, r') => some (v :: vs, r')

/-- Read `count` u64 ids. -/
def readIds : ℕ → List Tok → Option (List ℕ × List Tok)
  | 0, r => some ([], r)
  | Nat.succ k, toks =>
    match readU64 toks with
    | none => none
    | some (x, r) =>
      match readIds k r with
      | none => none
      | some (l, r') => some (x :: l, r')

/-- Read one adjacency list (degree then ids). -/
def readLayer (toks : List Tok) : Option (List ℕ × List Tok) :=
  match readU64 toks with
  | none => none
  | some (deg, r) => readIds deg r

/-- Read `count` adjacency lists. -/
def readLayers : ℕ → List Tok → Option (List (List ℕ) × List Tok)
  | 0, r => some ([], r)
  | Nat.succ k, toks =>
    match readLayer toks with
    | none => none
    | some (lst, r) =>
      match readLayers k r with
      | none => none
      | some (ls, r') => some (lst :: ls, r')

/-- Read one node record. -/
def readNode (toks : List Tok) : Option (HNode × List Tok) :=
  match readU64 toks with
  | none => none
  | some (id, r1) =>
    match readU64 r1 with
    | none => none
    | some (numLayers, r2) =>
      match readLayers numLayers r2 with
      | none => none
      | some (ls, r3) => some ({ id := id, neighbors := ls }, r3)

/-- Read `count` node records. -/
def readNodes : ℕ → List Tok → Option (List HNode × List Tok)
  | 0, r => some ([], r)
  | Nat.succ k, toks =>
    match readNode toks with
    | none => none
    | some (n, r) =>
      match readNodes k r with
      | none => none
      | some (ns, r') => some (n :: ns, r')

/-- `HNSW::load` (lines 655-735) over the token stream. -/
def hnswLoad (toks : List Tok) : Option HNSW :=
  match readU64 toks with
  | none => none
  | some (dim, r1) =>
  match readU64 r1 with
  | none => none
  | some (M, r2) =>
  match readU64 r2 with
  | none => none
  | some (efc, r3) =>
  match readI32 r3 with
  | none => none
  | some (metric_val, r4) =>
  match readU64 r4 with
  | none => none
  | some (entry, r5) =>
  match readU64 r5 with
  | none => none
  | some (max_l, r6) =>
  match readU64 r6 with
  | none => none
  | some (num_vectors, r7) =>
  match readVectors num_vectors dim r7 with
  | none => none
  | some (vs, r8) =>
  match readU64 r8 with
  | none => none
  | some (num_nodes, r9) =>
  match readNodes num_nodes r9 with
  | none => none
  | some (ns, _) =>
    some { dim := dim, M := M, ef_construction := efc,
           metric := tagToMetric metric_val, vectors := vs, nodes := ns,
           entry_point := entry, max_layer := max_l }

/-! ## ANN-in-SSD block model —
src/FinalProjects/TrackB/src/simulator/ann_in_ssd_model.cpp

The read-only dataset view is a function `ℕ → Vec` plus its size; the
lazily built block graph (`block_assignment_`, `block_centroids_`,
`block_neighbors_`) is passed as explicit state.  `std::nth_element`
followed by an ascending `std::sort` is rendered as a stable insertion
sort followed by `take` — the set selected is the same, only the order
among equal distances (unspecified in C++) is fixed; none of the
properties proved below depend on that order. -/

/-- `l2_distance_squared(a, b, dim)` reading exactly `dim` components
from each buffer. -/
def l2At (dim : ℕ) (a b : Vec) : ℚ :=
  l2_distance_squared (a.take dim) (b.take dim)

/-- The `AnnInSsdConfig` fields read by `search_one` and the block-graph
builder. -/
structure AnnInSsdConfig : Type where
  dimension : ℕ := 0
  num_vectors : ℕ := 0
  k : ℕ := 10
  vectors_per_block : ℕ := 128
  max_steps : ℕ := 0
  portal_degree : ℕ := 1
  code_type : String := "raw"
  placement_mode : String := "hash_home"
  entry_block_strategy : String := "centroid_knn"
  hardware_level : String := "L0"
deriving DecidableEq, Repr, Inhabited

/-- The lazily built block graph state. -/
structure BlockGraph : Type where
  assignment : List (List ℕ) := []
  centroids : List Vec := []
  neighbors : List (List ℕ) := []
deriving DecidableEq, Repr, Inhabited

/-- Per-query result counters (`QueryResult`). -/
structure QueryResult : Type where
  found_neighbors : List ℕ := []
  found_scores : List ℚ := []
  blocks_visited : ℕ := 0
  portal_steps : ℕ := 0
  internal_reads : ℕ := 0
  distances_computed : ℕ := 0
deriving DecidableEq, Repr, Inhabited

/-- The `hash_home` branch of `build_block_graph_if_needed`
(ann_in_ssd_model.cpp lines 168-178): block `b` owns the contiguous id
range `[b·K, min((b+1)·K, n))`, for `(n + K - 1) / K` blocks. -/
def hashHomeAssignment (n K : ℕ) : List (List ℕ) :=
  (List.range ((n + K - 1) / K)).map fun b =>
    List.range' (b * K) (min ((b + 1) * K) n - b * K)

/-- The effective dataset size `n` (ann_in_ssd_model.cpp lines
323-326): clipped by `num_vectors` when that is positive and smaller. -/
def annN (cfg : AnnInSsdConfig) (dsize : ℕ) : ℕ :=
  if 0 < cfg.num_vectors ∧ cfg.num_vectors < dsize then cfg.num_vectors else dsize

/-- Entry-block selection (ann_in_ssd_model.cpp lines 364-412): with
the `centroid_knn` strategy, the `E` nearest valid centroids (E = 4 on
L2 hardware, 8 on L3, else 1); otherwise, or when nothing qualifies,
block 0. -/
def entryBlocks (cfg : AnnInSsdConfig) (centroids : List Vec) (dim : ℕ)
    (query : Vec) : List ℕ :=
  if centroids ≠ [] ∧ query ≠ [] ∧ cfg.entry_block_strategy = "centroid_knn" then
    let candidates := (List.range centroids.length).filterMap fun b =>
      let c := centroids.getD b []
      if c.length = dim then some (l2At dim query c, b) else none
    let numEntry : ℕ :=
      if cfg.hardware_level = "L2" then 4
      else if cfg.hardware_level = "L3" then 8
      else 1
    let keep := min numEntry candidates.length
    if 0 < keep then
      ((candidates.insertionSort fun a b => a.1 ≤ b.1).take keep).map (fun p => p.2)
    else [0]
  else [0]

/-- The FIFO frontier expansion (ann_in_ssd_model.cpp lines 413-431),
fuelled: each iteration pops one queue entry and total queue entries
are bounded by the seeds plus one push per fresh visited mark. -/
def bfsGo (blockNbrs : List (List ℕ)) (num_blocks max_visit : ℕ) :
    ℕ → List ℕ → List ℕ → List ℕ → ℕ → List ℕ × ℕ
  | 0, _, order, _, p => (order, p)
  | Nat.succ fuel, pending, order, vis, p =>
    match pending with
    | [] => (order, p)
    | b :: rest =>
      if max_visit ≤ order.length then (order, p)
      else
        let order' := order ++ [b]
        if blockNbrs.length ≤ b then bfsGo blockNbrs num_blocks max_visit fuel rest order' vis p
        else
          let st := (blockNbrs.getD b []).foldl
            (fun (acc : List ℕ × List ℕ × ℕ) nb =>
              if num_blocks ≤ nb then acc
              else if nb ∈ acc.2.1 then acc
              else (acc.1 ++ [nb], nb :: acc.2.1, acc.2.2 + 1))
            (rest, vis, p)
          bfsGo blockNbrs num_blocks max_visit fuel st.1 order' st.2.1 st.2.2

/-- The visit phase of `search_one`: the guards of lines 319-351, entry
selection and frontier expansion, producing the visited block order and
the portal-step count.  None of this reads `code_type`. -/
def visitedBlocks (cfg : AnnInSsdConfig) (dsize : ℕ) (bg : BlockGraph)
    (query : Vec) : List ℕ × ℕ :=
  let n := annN cfg dsize
  if n = 0 then ([], 0)
  else
    let dim := if cfg.dimension = 0 then query.length else cfg.dimension
    if dim = 0 then ([], 0)
    else if cfg.k = 0 then ([], 0)
    else
      let K := if cfg.vectors_per_block = 0 then 128 else cfg.vectors_per_block
      let num_blocks := (n + K - 1) / K
      let max_visit :=
        if 0 < cfg.max_steps ∧ cfg.max_steps < num_blocks then cfg.max_steps else num_blocks
      let entries := entryBlocks cfg bg.centroids dim query
      bfsGo bg.neighbors num_blocks max_visit (num_blocks + entries.length + 1)
        entries [] entries 0

/-- The `(distance, id)` pairs pushed during the scan loop
(ann_in_ssd_model.cpp lines 466-471): the distance to every vector of
every visited block, in visit order.  This list is built identically
for both `code_type` modes. -/
def scannedDistIds (cfg : AnnInSsdConfig) (dsize : ℕ) (dataset : ℕ → Vec)
    (bg : BlockGraph) (query : Vec) : List (ℚ × ℕ) :=
  let dim := if cfg.dimension = 0 then query.length else cfg.dimension
  (visitedBlocks cfg dsize bg query).1.flatMap fun b =>
    (bg.assignment.getD b []).map fun vid => (l2At dim query (dataset vid), vid)

/-- The scan loop of `search_one` (ann_in_ssd_model.cpp lines 438-479)
over the visited blocks `order`: accumulate the `(distance, id)` pairs
of every vector of every visited block, the `distances_computed`
counter (charging `min(block_size, 16)` per block when
`ct = "micro_index"`, the full block size otherwise), and one
`internal_read` per block. -/
def scanBlocksFold (ct : String) (dim : ℕ) (dataset : ℕ → Vec)
    (assignment : List (List ℕ)) (query : Vec) (order : List ℕ) :
    List (ℚ × ℕ) × ℕ × ℕ :=
  order.foldl
    (fun (acc : List (ℚ × ℕ) × ℕ × ℕ) b =>
      let ids := assignment.getD b []
      (acc.1 ++ ids.map (fun vid => (l2At dim query (dataset vid), vid)),
       acc.2.1 + (if ct = "micro_index" then min ids.length 16 else ids.length),
       acc.2.2 + 1))
    ([], 0, 0)

/-- The finalisation step of `search_one` (ann_in_ssd_model.cpp lines
481-503): keep the `min(k, |dist_id|)` smallest-distance pairs, sorted
ascending, returning the base result untouched when nothing qualifies. -/
def finalizeTopK (k : ℕ) (distId : List (ℚ × ℕ)) (base : QueryResult) : QueryResult :=
  let kk := min k distId.length
  if kk = 0 then base
  else
    let topk := (distId.insertionSort fun a b => a.1 ≤ b.1).take kk
    { base with
        found_neighbors := topk.map (fun p => p.2)
        found_scores := topk.map (fun p => p.1) }

/-- `AnnInSsdModel::search_one(query)` (ann_in_ssd_model.cpp lines
315-506) against an already-built block graph: visit phase, scan phase
(distances for every vector of every visited block; the
`distances_computed` counter charges `min(16, block_size)` per block
when `code_type == "micro_index"` and the full block size otherwise),
then partial selection of the `k` smallest. -/
def searchOne (cfg : AnnInSsdConfig) (dsize : ℕ) (dataset : ℕ → Vec)
    (bg : BlockGraph) (query : Vec) : QueryResult :=
  let n := annN cfg dsize
  let dim := if cfg.dimension = 0 then query.length else cfg.dimension
  let k := min cfg.k n
  let vb := visitedBlocks cfg dsize bg query
  let scan := scanBlocksFold cfg.code_type dim dataset bg.assignment query vb.1
  let base : QueryResult :=
    { blocks_visited := vb.1.length, portal_steps := vb.2,
      internal_reads := scan.2.2, distances_computed := scan.2.1 }
  finalizeTopK k scan.1 base

/-- Invariant of the serial build after the ids `0, …, K-1` have been
inserted: every adjacency list respects its layer cap, adjacency only
mentions inserted ids, uninserted nodes have no edges, and the entry
point is either unset or an inserted id.  Used by the degree-cap
proof. -/
def SerialInv (g : HNSW) (K : ℕ) : Prop :=
  (∀ i l, (nbrsAt g i l).length ≤ layerCap g.M l) ∧
  (∀ i l x, x ∈ nbrsAt g i l → x < K) ∧
  (∀ i, K ≤ i → ∀ l, nbrsAt g i l = []) ∧
  (g.entry_point = U64MAX ∨ g.entry_point < K)

/-! ## Concrete scenarios used by the claims -/

/-- Scenario A backing data: 4 vectors of dim 4 with values `4·i + d`. -/
def c1vec (i : ℕ) : Vec := [4 * i, 4 * i + 1, 4 * i + 2, 4 * i + 3]

/-- Scenario A backing store: a memory backend holding ids 0..3. -/
def c1mem : MemoryBackend :=
  MemoryBackend.runWrites [(0, c1vec 0), (1, c1vec 1), (2, c1vec 2), (3, c1vec 3)]

/-- Scenario A initial state: tiered backend of capacity 2 with LRU
policy over the 4-vector backing store. -/
def c1s0 : TieredBackend × MemoryBackend := (TieredBackend.mkLRU 2, c1mem)

/-- Scenario A after reading ids 0, 1, 2, 3. -/
def c1s4 : TieredBackend × MemoryBackend := tieredMemReads c1s0 [0, 1, 2, 3]

/-- Scenario A after additionally reading ids 0, 1. -/
def c1s6 : TieredBackend × MemoryBackend := tieredMemReads c1s4 [0, 1]

/-- Scenario A after additionally reading 0, 1 four more times. -/
def c1s14 : TieredBackend × MemoryBackend :=
  tieredMemReads c1s6 [0, 1, 0, 1, 0, 1, 0, 1]

/-- Memory backend holding one vector of length 4 at id 0 (used to show
that a subsequent write of a different length still succeeds). -/
def c2st1 : MemoryBackend := (MemoryBackend.write_node {} 0 [1, 2, 3, 4]).2

/-! ### Degree-cap counterexample trace for the parallel build

`dim = 1`, `M = 1` (layer-0 cap `2M = 2`), `ef_construction = 10`,
metric L2; positions 0, 1, 2.25, 10, 10.25 (all exactly representable
as floats; every distance compared in the trace is distinct, so the
trace is heap-implementation independent).  The schedule, legal under
the locking discipline of `insert_node_parallel` (no lock is held
between its critical sections):

1. `build_parallel` inserts node 0 serially (drawn level 1).
2. a worker inserts node 1 (level 0) and node 2 (level 0) to completion.
3. worker A starts node 3 (level 1): node init, snapshot
   `(entry_point, max_layer) = (0, 1)`, then processes connect layer 1
   to completion, then computes its layer-0 candidates and neighbour
   selection `[2, 1]` — and is preempted before taking its self lock.
4. worker C inserts node 4 (level 0) to completion: its greedy descent
   at layer 1 reaches node 3, so its layer-0 connect selects node 3 and
   pushes 4 into node 3's (still empty) layer-0 list — one entry, no
   prune.
5. A resumes: its self append adds `[2, 1]` onto `[4]`, with no prune,
   leaving node 3's layer-0 list at 3 entries, above the cap 2; the
   remaining symmetric updates touch only nodes 2 and 1, and the final
   build state keeps the over-cap list. -/

/-- Counterexample dataset (`mkRat` keeps the literals
kernel-reducible; the values are 0, 1, 2.25, 10, 10.25). -/
def cexData : List Vec := [[0], [1], [mkRat 9 4], [10], [mkRat 41 4]]

/-- After the serial insertion of node 0 at level 1 (hnsw.cpp line 181). -/
def cexG0 : HNSW :=
  insert_node (fun q => q) (resetForBuild 1 1 10 DistanceMetric.L2 cexData) 0 1

/-- After node 1 (level 0) is inserted to completion. -/
def cexG1 : HNSW := parInsert (fun q => q) cexG0 1 0

/-- After node 2 (level 0) is inserted to completion. -/
def cexG2 : HNSW := parInsert (fun q => q) cexG1 2 0

/-- Worker A's node init for node 3, level 1 (lines 298-305). -/
def cexGA1 : HNSW := parNodeInit cexG2 3 1

/-- Worker A after fully processing connect layer 1 (snapshot
`(ep, cur_max) = (0, 1)`, no descent since `cur_max = level`). -/
def cexGA2 : HNSW := parProcessLayer (fun q => q) cexGA1 3 [10] 0 1

/-- Worker A's layer-0 neighbour selection, computed on `cexGA2` before
its self append (lines 339-343, lock-free). -/
def cexNeigh0 : List ℕ := parSelectAtLayer (fun q => q) cexGA2 [10] 0 0

/-- Worker C inserts node 4 (level 0) to completion while A is paused. -/
def cexGC : HNSW := parInsert (fun q => q) cexGA2 4 0

/-- Worker A resumes: self append of `cexNeigh0` and symmetric updates
at layer 0 (lines 345-382), then the entry-point check (level 1 is not
greater than the snapshot `cur_max = 1`).  All worker threads are now
done, so this is the final state of this `build_parallel` execution. -/
def cexGF : HNSW :=
  parEntryUpdate (parConnectAtLayer (fun q => q) cexGC 3 0 cexNeigh0) 3 1 1

/-- A small freshly built index (1-D line, M = 2) used to witness the
save/load round trip. -/
def c4wg : HNSW :=
  buildHNSW (fun q => q) 1 2 10 DistanceMetric.L2 [[0], [1], [2]] [0, 1, 0]

/-- A concrete SSD simulator (2 channels, queue depth 3, base latency
5 µs, 1 GB/s) used to witness the device-time formula. -/
def c6sim : SsdSimulator :=
  { config := { num_channels := 2, queue_depth_per_channel := 3,
                base_read_latency_us := 5, internal_read_bandwidth_GBps := 1 } }

/-! ## Theorems -/

theorem qadd_eq (a b : ℚ) : qadd a b = a + b := (Rat.add_def' a b).symm

theorem qsub_eq (a b : ℚ) : qsub a b = a - b := (Rat.sub_def' a b).symm

theorem qmul_eq (a b : ℚ) : qmul a b = a * b := by
  rw [Rat.mul_def, Rat.normalize_eq_mkRat, qmul]

theorem qsum_eq (l : List ℚ) : qsum l = l.sum := by
  induction l with
  | nil => rfl
  | cons x xs ih => simp [qsum, List.foldr] at *; rw [qadd_eq, ih]

/-- `l2_distance_squared` written with the ordinary field operations. -/
theorem l2_distance_squared_eq (a b : Vec) :
    l2_distance_squared a b = (List.zipWith (fun x y => (x - y) * (x - y)) a b).sum := by
  rw [l2_distance_squared, qsum_eq]
  congr 1
  induction a generalizing b with
  | nil => cases b <;> rfl
  | cons x xs ih =>
    cases b with
    | nil => rfl
    | cons y ys => simp only [List.zipWith]; rw [qmul_eq, qsub_eq, ih]

/-- `inner_product` written with the ordinary field operations. -/
theorem inner_product_eq (a b : Vec) :
    inner_product a b = (List.zipWith (fun x y => x * y) a b).sum := by
  rw [inner_product, qsum_eq]
  congr 1
  induction a generalizing b with
  | nil => cases b <;> rfl
  | cons x xs ih =>
    cases b with
    | nil => rfl
    | cons y ys => simp only [List.zipWith]; rw [qmul_eq, ih]

theorem l2_distance_squared_symm (a b : Vec) :
    l2_distance_squared a b = l2_distance_squared b a := by
  rw [l2_distance_squared_eq, l2_distance_squared_eq]
  congr 1
  induction a generalizing b with
  | nil => cases b <;> rfl
  | cons x xs ih =>
    cases b with
    | nil => rfl
    | cons y ys =>
      simp only [List.zipWith]
      rw [ih, show (x - y) * (x - y) = (y - x) * (y - x) by ring]

theorem inner_product_symm (a b : Vec) : inner_product a b = inner_product b a := by
  rw [inner_product_eq, inner_product_eq]
  congr 1
  induction a generalizing b with
  | nil => cases b <;> rfl
  | cons x xs ih =>
    cases b with
    | nil => rfl
    | cons y ys => simp only [List.zipWith]; rw [ih, mul_comm x y]

/-- C5: for all vectors `a` and `b` of equal dimension, the distance
kernel is exactly symmetric for the L2-squared and
negative-inner-product metrics: `d(a,b) = d(b,a)`. -/
theorem C5_distance_symmetry (sqrtFn : ℚ → ℚ) (a b : Vec)
    (hlen : a.length = b.length) :
    compute_distance sqrtFn DistanceMetric.L2 a b =
      compute_distance sqrtFn DistanceMetric.L2 b a ∧
    compute_distance sqrtFn DistanceMetric.InnerProduct a b =
      compute_distance sqrtFn DistanceMetric.InnerProduct b a := by
  refine ⟨?_, ?_⟩
  · simpa [compute_distance] using l2_distance_squared_symm a b
  · simp [compute_distance, inner_product_symm a b]

/-- Witness for C5 at a concrete pair of dimension-2 vectors. -/
theorem C5_distance_symmetry_witness :
    ([1, 2] : Vec).length = ([3, 5] : Vec).length ∧
    (compute_distance (fun q => q) DistanceMetric.L2 [1, 2] [3, 5] =
       compute_distance (fun q => q) DistanceMetric.L2 [3, 5] [1, 2] ∧
     compute_distance (fun q => q) DistanceMetric.InnerProduct [1, 2] [3, 5] =
       compute_distance (fun q => q) DistanceMetric.InnerProduct [3, 5] [1, 2]) :=
  ⟨rfl, C5_distance_symmetry (fun q => q) [1, 2] [3, 5] rfl⟩

/-- C1: the scenario-A trace.  Reading ids 0, 1, 2, 3 through the
capacity-2 LRU tiered backend produces four misses and no hit and
leaves `{2, 3}` resident; the next reads of 0 and 1 are two more misses
that evict 2 and 3; four further repetitions of 0, 1 are eight hits
with no additional miss, ending with `cache_hits = 8` and resident set
exactly `{0, 1}`. -/
theorem C1_tiered_lru_pressure_trace :
    (c1s4.1.cache_hits = 0 ∧ c1s4.1.cache_misses = 4 ∧
      (c1s4.1.cache.map Prod.fst).Perm [2, 3]) ∧
    (c1s6.1.cache_hits = 0 ∧ c1s6.1.cache_misses = 6 ∧
      (c1s6.1.cache.map Prod.fst).Perm [0, 1]) ∧
    (c1s14.1.cache_hits = 8 ∧ c1s14.1.cache_misses = 6 ∧
      (c1s14.1.cache.map Prod.fst).Perm [0, 1]) := by decide

/-- C2 counterexample: the in-memory backend performs no dimension
check.  After a write of a length-4 vector at id 0 (so the backend
"holds vectors of dimension 4"), a write of a length-3 vector at id 1
returns success and stores the payload, where the claim requires
failure and no store. -/
theorem C2_memory_backend_accepts_mismatched_write :
    (c2st1.data.getD 0 []).length = 4 ∧
    (c2st1.write_node 1 [5, 6, 7]).1 = true ∧
    ((c2st1.write_node 1 [5, 6, 7]).2.read_node 1).1 = some [5, 6, 7] := by decide

/-- C2 amended: the file backend rejects a write whose payload length
differs from its (non-zero) dimension: the call fails and issues no
file write, leaving the backend state unchanged. -/
theorem C2_file_backend_rejects_dimension_mismatch (env : FileWriteEnv)
    (st : FileBackend) (id : ℕ) (data : Vec) (hdim : st.dim ≠ 0)
    (hlen : data.length ≠ st.dim) :
    FileBackend.write_node env st id data = (false, st, none) := by
  simp [FileBackend.write_node, hdim, hlen]

/-- Witness for the amended C2 at a dimension-4 file backend and a
length-3 payload. -/
theorem C2_file_backend_rejects_dimension_mismatch_witness :
    ({ dim := 4 } : FileBackend).dim ≠ 0 ∧
    ([5, 6, 7] : Vec).length ≠ ({ dim := 4 } : FileBackend).dim ∧
    FileBackend.write_node { open_ok := true, seek_ok := true, write_ok := true }
      { dim := 4 } 1 [5, 6, 7] = (false, { dim := 4 }, none) :=
  ⟨by decide, by decide,
    C2_file_backend_rejects_dimension_mismatch _ _ 1 _ (by decide) (by decide)⟩

theorem if_zero_one_eq_max (p : ℕ) : (if p = 0 then 1 else p) = max 1 p := by
  cases p with
  | zero => simp
  | succ q => simp [Nat.max_eq_right (Nat.succ_le_succ (Nat.zero_le q))]

/-- C6: each logical read of `B` bytes recorded into the SSD device
model adds exactly
`(base_read_latency_us + B / bandwidth_bytes_per_us) / max(1, num_channels · queue_depth_per_channel)`
microseconds to the device-time accumulator (with
`bandwidth_bytes_per_us = internal_read_bandwidth_GBps · 1e9 / 1e6`),
and `device_time_us()` on a tiered backend returns 0 whenever no device
model is attached. -/
theorem C6_ssd_record_read_time (sim : SsdSimulator) (bytes : ℕ)
    (st : TieredBackend)
    (hbw : 0 < sim.config.internal_read_bandwidth_GBps)
    (hs : st.ssd_sim = none) :
    (sim.record_read bytes).total_time_us =
      sim.total_time_us +
        (sim.config.base_read_latency_us +
          (bytes : ℚ) /
            (sim.config.internal_read_bandwidth_GBps * 1000000000 / 1000000)) /
        ((max 1 (sim.config.num_channels * sim.config.queue_depth_per_channel) : ℕ) : ℚ) ∧
    st.device_time_us = 0 := by
  constructor
  · have hbw' : (0 : ℚ) <
        sim.config.internal_read_bandwidth_GBps * 1000000000 / 1000000 := by positivity
    simp only [SsdSimulator.record_read, if_pos hbw, if_pos hbw', if_zero_one_eq_max]
  · simp [TieredBackend.device_time_us, hs]

/-- Witness for C6: the concrete simulator `c6sim`, a 2000-byte read,
and a tiered backend without a device model. -/
theorem C6_ssd_record_read_time_witness :
    0 < c6sim.config.internal_read_bandwidth_GBps ∧
    (TieredBackend.mkLRU 2).ssd_sim = none ∧
    ((c6sim.record_read 2000).total_time_us =
      c6sim.total_time_us +
        (c6sim.config.base_read_latency_us +
          (2000 : ℚ) /
            (c6sim.config.internal_read_bandwidth_GBps * 1000000000 / 1000000)) /
        ((max 1 (c6sim.config.num_channels * c6sim.config.queue_depth_per_channel) : ℕ) : ℚ) ∧
     (TieredBackend.mkLRU 2).device_time_us = 0) :=
  ⟨by decide, rfl, C6_ssd_record_read_time c6sim 2000 (TieredBackend.mkLRU 2) (by decide) rfl⟩

/-- C9: a failed file-backend read (dimension unset, open failure, seek
failure, or read failure) leaves the backend state — in particular its
`IOStats` — unchanged, and a tiered-backend read that misses the cache
and whose backing read is absent or fails reports failure and leaves
the tiered state (stats, cache, hit and miss counters) unchanged. -/
theorem C9_failed_read_leaves_state_unchanged (env : FileReadEnv)
    (fst : FileBackend) (node_id : ℕ) (st : TieredBackend) (tid : ℕ)
    (backing : Option (Option Vec)) (us : ℚ)
    (hmiss : List.lookup tid st.cache = none)
    (hfail : backing = none ∨ backing = some none) :
    ((FileBackend.read_node env fst node_id).1 = none →
      (FileBackend.read_node env fst node_id).2 = fst) ∧
    st.read_node tid backing us = (none, st) := by
  constructor
  · by_cases h1 : fst.dim = 0
    · simp [FileBackend.read_node, h1]
    · by_cases h2 : env.open_ok = false
      · simp [FileBackend.read_node, h1, h2]
      · by_cases h3 : env.seek_ok = false
        · simp [FileBackend.read_node, h1, h2, h3]
        · cases hr : env.read_result with
          | none => simp [FileBackend.read_node, h1, h2, h3, hr]
          | some v => simp [FileBackend.read_node, h1, h2, h3, hr]
  · rcases hfail with h | h <;> subst h <;> simp [TieredBackend.read_node, hmiss]

/-- Witness for C9: an open failure against a dimension-4 file backend,
and a fresh capacity-2 tiered backend with no backing attached. -/
theorem C9_failed_read_leaves_state_unchanged_witness :
    List.lookup 0 (TieredBackend.mkLRU 2).cache = none ∧
    ((none : Option (Option Vec)) = none ∨ (none : Option (Option Vec)) = some none) ∧
    (((FileBackend.read_node { open_ok := false, seek_ok := true, read_result := none }
        { dim := 4 } 0).1 = none →
      (FileBackend.read_node { open_ok := false, seek_ok := true, read_result := none }
        { dim := 4 } 0).2 = { dim := 4 }) ∧
     (TieredBackend.mkLRU 2).read_node 0 none 0 = (none, TieredBackend.mkLRU 2)) :=
  ⟨rfl, Or.inl rfl,
    C9_failed_read_leaves_state_unchanged _ _ 0 (TieredBackend.mkLRU 2) 0 none 0 rfl (Or.inl rfl)⟩

theorem length_growTo (l : List α) (n : ℕ) (pad : α) :
    (growTo l n pad).length = max l.length n := by
  simp [growTo]; omega

theorem getD_growTo (l : List α) (n : ℕ) (pad : α) (i : ℕ) :
    (growTo l n pad).getD i pad = l.getD i pad := by
  rcases lt_or_le i l.length with h | h
  · simp [growTo, List.getD_eq_getElem?_getD, List.getElem?_append_left h]
  · have h1 : l.getD i pad = pad := by
      simp [List.getD_eq_getElem?_getD, List.getElem?_eq_none h]
    rw [h1]
    simp only [growTo, List.getD_eq_getElem?_getD, List.getElem?_append_right h,
      List.getElem?_replicate]
    split <;> simp

theorem write_node_wf (st : MemoryBackend) (id : ℕ) (d : Vec)
    (hwf : st.present.length = st.data.length) :
    ((st.write_node id d).2).present.length = ((st.write_node id d).2).data.length := by
  by_cases hgrow : st.data.length ≤ id <;>
    simp [MemoryBackend.write_node, hgrow, List.length_set, length_growTo, hwf]

theorem write_node_present_getD (st : MemoryBackend) (id : ℕ) (d : Vec) (i : ℕ)
    (hwf : st.present.length = st.data.length) :
    ((st.write_node id d).2).present.getD i false =
      (if i = id then true else st.present.getD i false) := by
  simp only [MemoryBackend.write_node]
  by_cases hgrow : st.data.length ≤ id
  · simp only [if_pos hgrow]
    by_cases hi : i = id
    · subst hi
      have hlen : i < (growTo st.present (i + 1) false).length := by
        rw [length_growTo]; omega
      simp [List.getD_eq_getElem?_getD, List.getElem?_set_self hlen]
    · rw [List.getD_eq_getElem?_getD, List.getElem?_set_ne (fun h => hi h.symm),
        ← List.getD_eq_getElem?_getD, getD_growTo, if_neg hi]
  · simp only [if_neg hgrow]
    by_cases hi : i = id
    · subst hi
      have hlen : i < st.present.length := by omega
      simp [List.getD_eq_getElem?_getD, List.getElem?_set_self hlen]
    · rw [List.getD_eq_getElem?_getD, List.getElem?_set_ne (fun h => hi h.symm),
        ← List.getD_eq_getElem?_getD, if_neg hi]

theorem read_node_isSome_iff (st : MemoryBackend) (i : ℕ)
    (hwf : st.present.length = st.data.length) :
    ((st.read_node i).1).isSome = true ↔ st.present.getD i false = true := by
  constructor
  · intro h
    unfold MemoryBackend.read_node at h
    split at h
    · next hcond => exact hcond.2.2
    · simp at h
  · intro h
    have hip : i < st.present.length := by
      by_contra hn
      rw [List.getD_eq_getElem?_getD, List.getElem?_eq_none (by omega)] at h
      simp at h
    unfold MemoryBackend.read_node
    rw [if_pos ⟨by omega, hip, h⟩]
    rfl

theorem foldl_writes_present (ops : List (ℕ × Vec)) (i : ℕ) :
    ∀ st : MemoryBackend, st.present.length = st.data.length →
      ((ops.foldl (fun st p => (st.write_node p.1 p.2).2) st).present.getD i false = true ↔
        st.present.getD i false = true ∨ i ∈ ops.map Prod.fst) := by
  induction ops with
  | nil => intro st _; simp
  | cons a rest ih =>
    intro st hwf
    simp only [List.foldl_cons, List.map_cons, List.mem_cons]
    rw [ih _ (write_node_wf st a.1 a.2 hwf), write_node_present_getD st a.1 a.2 i hwf]
    by_cases hi : i = a.1 <;> simp [hi]

theorem foldl_writes_wf (ops : List (ℕ × Vec)) :
    ∀ st : MemoryBackend, st.present.length = st.data.length →
      ((ops.foldl (fun st p => (st.write_node p.1 p.2).2) st).present.length =
        (ops.foldl (fun st p => (st.write_node p.1 p.2).2) st).data.length) := by
  induction ops with
  | nil => intro st hwf; simpa using hwf
  | cons a rest ih => intro st hwf; exact ih _ (write_node_wf st a.1 a.2 hwf)

/-- C10: for the in-memory backend, `read_node id` succeeds exactly
when some `write_node id …` was previously performed (every write
succeeds); a write beyond the current size grows storage to `id + 1`
slots, and ids in the grown range that were never written still read as
not-found. -/
theorem C10_memory_backend_read_iff_written (ops : List (ℕ × Vec)) (id : ℕ)
    (st : MemoryBackend) (wid : ℕ) (d : Vec) :
    ((((MemoryBackend.runWrites ops).read_node id).1).isSome = true ↔
      id ∈ ops.map Prod.fst) ∧
    (st.write_node wid d).1 = true ∧
    ((st.write_node wid d).2).data.length = max st.data.length (wid + 1) := by
  refine ⟨?_, rfl, ?_⟩
  · unfold MemoryBackend.runWrites
    rw [read_node_isSome_iff _ _ (foldl_writes_wf ops {} rfl),
      foldl_writes_present ops id {} rfl]
    simp
  · simp only [MemoryBackend.write_node]
    by_cases hgrow : st.data.length ≤ wid
    · simp only [if_pos hgrow, List.length_set, length_growTo]
    · simp only [if_neg hgrow, List.length_set]; omega

theorem hashHome_getD (n K b : ℕ) (hb : b < (n + K - 1) / K) :
    (hashHomeAssignment n K).getD b [] =
      List.range' (b * K) (min ((b + 1) * K) n - b * K) := by
  simp [hashHomeAssignment, List.getD_eq_getElem?_getD, List.getElem?_map,
    List.getElem?_range hb]

theorem mem_hashHome_block (n K b id : ℕ) (hb : b < (n + K - 1) / K) :
    id ∈ (hashHomeAssignment n K).getD b [] ↔
      b * K ≤ id ∧ id < (b + 1) * K ∧ id < n := by
  rw [hashHome_getD n K b hb, List.mem_range']
  constructor
  · rintro ⟨i, hi, rfl⟩
    have hs : b * K + (min ((b + 1) * K) n - b * K) = min ((b + 1) * K) n ∨
        min ((b + 1) * K) n ≤ b * K := by omega
    rcases le_total ((b + 1) * K) n with h | h <;>
      simp only [Nat.min_eq_left h, Nat.min_eq_right h] at hi ⊢ <;> omega
  · rintro ⟨h1, h2, h3⟩
    refine ⟨id - b * K, ?_, by omega⟩
    rcases le_total ((b + 1) * K) n with h | h <;>
      simp only [Nat.min_eq_left h, Nat.min_eq_right h] <;> omega

/-- C7: under `hash_home` placement with `n` vectors and block size
`K > 0`, the builder creates `⌈n/K⌉ = (n + K - 1) / K` blocks (the two
inequalities pin this quotient as the ceiling of `n/K`), block `b`'s
assignment is exactly the id range `[b·K, min((b+1)·K, n))`, and every
id in `[0, n)` belongs to exactly one block's assignment. -/
theorem C7_hash_home_partition (n K : ℕ) (hK : 0 < K) :
    (hashHomeAssignment n K).length = (n + K - 1) / K ∧
    (n ≤ K * ((n + K - 1) / K) ∧ K * ((n + K - 1) / K) < n + K) ∧
    (∀ b, b < (n + K - 1) / K →
      (hashHomeAssignment n K).getD b [] =
        List.range' (b * K) (min ((b + 1) * K) n - b * K)) ∧
    (∀ id, id < n → ∃! b, b < (hashHomeAssignment n K).length ∧
      id ∈ (hashHomeAssignment n K).getD b []) := by
  have hlen : (hashHomeAssignment n K).length = (n + K - 1) / K := by
    simp [hashHomeAssignment]
  have hceil1 : K * ((n + K - 1) / K) ≤ n + K - 1 := Nat.mul_div_le (n + K - 1) K
  have hceil2 : n + K - 1 < K * ((n + K - 1) / K) + K := by
    have h := Nat.lt_mul_div_succ (n + K - 1) hK
    rwa [Nat.mul_succ] at h
  refine ⟨hlen, ⟨by omega, by omega⟩, fun b hb => hashHome_getD n K b hb, ?_⟩
  intro id hid
  have e1 : K * (id / K) ≤ id := Nat.mul_div_le id K
  have e2 : id < K * (id / K) + K := by
    have h := Nat.lt_mul_div_succ id hK
    rwa [Nat.mul_succ] at h
  have hblt : id / K < (n + K - 1) / K := by
    by_contra hn
    push_neg at hn
    have hm := Nat.mul_le_mul_left K hn
    omega
  refine ⟨id / K, ⟨by omega, ?_⟩, ?_⟩
  · rw [mem_hashHome_block n K _ id hblt, Nat.succ_mul, Nat.mul_comm (id / K) K]
    exact ⟨by omega, by omega, hid⟩
  · rintro b ⟨hb, hmem⟩
    rw [hlen] at hb
    rw [mem_hashHome_block n K b id hb] at hmem
    exact (Nat.div_eq_of_lt_le hmem.1 hmem.2.1).symm

/-- Witness for C7 at `n = 10`, `K = 4`. -/
theorem C7_hash_home_partition_witness :
    0 < 4 ∧
    ((hashHomeAssignment 10 4).length = (10 + 4 - 1) / 4 ∧
     (10 ≤ 4 * ((10 + 4 - 1) / 4) ∧ 4 * ((10 + 4 - 1) / 4) < 10 + 4) ∧
     (∀ b, b < (10 + 4 - 1) / 4 →
       (hashHomeAssignment 10 4).getD b [] =
         List.range' (b * 4) (min ((b + 1) * 4) 10 - b * 4)) ∧
     (∀ id, id < 10 → ∃! b, b < (hashHomeAssignment 10 4).length ∧
       id ∈ (hashHomeAssignment 10 4).getD b [])) :=
  ⟨by decide, C7_hash_home_partition 10 4 (by decide)⟩

theorem finalize_found_neighbors (k : ℕ) (dl : List (ℚ × ℕ)) (b : QueryResult) :
    (finalizeTopK k dl b).found_neighbors =
      (if min k dl.length = 0 then b.found_neighbors
       else ((dl.insertionSort fun a b => a.1 ≤ b.1).take (min k dl.length)).map
         (fun p => p.2)) := by
  simp only [finalizeTopK]; split <;> rfl

theorem finalize_found_scores (k : ℕ) (dl : List (ℚ × ℕ)) (b : QueryResult) :
    (finalizeTopK k dl b).found_scores =
      (if min k dl.length = 0 then b.found_scores
       else ((dl.insertionSort fun a b => a.1 ≤ b.1).take (min k dl.length)).map
         (fun p => p.1)) := by
  simp only [finalizeTopK]; split <;> rfl

theorem finalize_blocks_visited (k : ℕ) (dl : List (ℚ × ℕ)) (b : QueryResult) :
    (finalizeTopK k dl b).blocks_visited = b.blocks_visited := by
  simp only [finalizeTopK]; split <;> rfl

theorem finalize_portal_steps (k : ℕ) (dl : List (ℚ × ℕ)) (b : QueryResult) :
    (finalizeTopK k dl b).portal_steps = b.portal_steps := by
  simp only [finalizeTopK]; split <;> rfl

theorem finalize_internal_reads (k : ℕ) (dl : List (ℚ × ℕ)) (b : QueryResult) :
    (finalizeTopK k dl b).internal_reads = b.internal_reads := by
  simp only [finalizeTopK]; split <;> rfl

theorem finalize_distances_computed (k : ℕ) (dl : List (ℚ × ℕ)) (b : QueryResult) :
    (finalizeTopK k dl b).distances_computed = b.distances_computed := by
  simp only [finalizeTopK]; split <;> rfl

theorem scanBlocksFold_go (ct : String) (dim : ℕ) (dataset : ℕ → Vec)
    (assignment : List (List ℕ)) (query : Vec) :
    ∀ (order : List ℕ) (acc : List (ℚ × ℕ) × ℕ × ℕ),
      order.foldl
        (fun (acc : List (ℚ × ℕ) × ℕ × ℕ) b =>
          let ids := assignment.getD b []
          (acc.1 ++ ids.map (fun vid => (l2At dim query (dataset vid), vid)),
           acc.2.1 + (if ct = "micro_index" then min ids.length 16 else ids.length),
           acc.2.2 + 1))
        acc =
      (acc.1 ++ order.flatMap
          (fun b => (assignment.getD b []).map (fun vid => (l2At dim query (dataset vid), vid))),
       acc.2.1 + (order.map (fun b =>
          if ct = "micro_index" then min (assignment.getD b []).length 16
          else (assignment.getD b []).length)).sum,
       acc.2.2 + order.length) := by
  intro order
  induction order with
  | nil => intro acc; simp
  | cons b rest ih =>
    intro acc
    simp only [List.foldl_cons, ih, List.flatMap_cons, List.map_cons, List.sum_cons,
      List.length_cons, List.append_assoc]
    refine congrArg (Prod.mk _) (congrArg₂ Prod.mk ?_ ?_) <;> omega

theorem scanBlocksFold_eq (ct : String) (dim : ℕ) (dataset : ℕ → Vec)
    (assignment : List (List ℕ)) (query : Vec) (order : List ℕ) :
    scanBlocksFold ct dim dataset assignment query order =
      (order.flatMap
          (fun b => (assignment.getD b []).map (fun vid => (l2At dim query (dataset vid), vid))),
       (order.map (fun b =>
          if ct = "micro_index" then min (assignment.getD b []).length 16
          else (assignment.getD b []).length)).sum,
       order.length) := by
  rw [scanBlocksFold, scanBlocksFold_go]
  simp

/-- C8: with `code_type = micro_index` the per-query
`distances_computed` counter charges exactly `min(16, block_size)` per
visited block, with `code_type = raw` it charges the full assignment
size; in both modes the distance to every vector of every visited block
is computed (the scanned `(distance, id)` list is identical), so the
returned neighbours, scores and all other counters are unaffected by
`code_type`. -/
theorem C8_micro_index_accounting (cfg : AnnInSsdConfig) (dsize : ℕ)
    (dataset : ℕ → Vec) (bg : BlockGraph) (query : Vec) :
    (searchOne { cfg with code_type := "micro_index" } dsize dataset bg query).found_neighbors =
      (searchOne { cfg with code_type := "raw" } dsize dataset bg query).found_neighbors ∧
    (searchOne { cfg with code_type := "micro_index" } dsize dataset bg query).found_scores =
      (searchOne { cfg with code_type := "raw" } dsize dataset bg query).found_scores ∧
    (searchOne { cfg with code_type := "micro_index" } dsize dataset bg query).blocks_visited =
      (searchOne { cfg with code_type := "raw" } dsize dataset bg query).blocks_visited ∧
    (searchOne { cfg with code_type := "micro_index" } dsize dataset bg query).portal_steps =
      (searchOne { cfg with code_type := "raw" } dsize dataset bg query).portal_steps ∧
    (searchOne { cfg with code_type := "micro_index" } dsize dataset bg query).internal_reads =
      (searchOne { cfg with code_type := "raw" } dsize dataset bg query).internal_reads ∧
    (searchOne { cfg with code_type := "micro_index" } dsize dataset bg query).distances_computed =
      ((visitedBlocks cfg dsize bg query).1.map
        (fun b => min (bg.assignment.getD b []).length 16)).sum ∧
    (searchOne { cfg with code_type := "raw" } dsize dataset bg query).distances_computed =
      ((visitedBlocks cfg dsize bg query).1.map
        (fun b => (bg.assignment.getD b []).length)).sum ∧
    scannedDistIds { cfg with code_type := "micro_index" } dsize dataset bg query =
      scannedDistIds { cfg with code_type := "raw" } dsize dataset bg query ∧
    (∀ b ∈ (visitedBlocks cfg dsize bg query).1, ∀ vid ∈ bg.assignment.getD b [],
      (l2At (if cfg.dimension = 0 then query.length else cfg.dimension) query (dataset vid), vid)
        ∈ scannedDistIds cfg dsize dataset bg query) := by
  have hvbM : visitedBlocks { cfg with code_type := "micro_index" } dsize bg query =
      visitedBlocks cfg dsize bg query := rfl
  have hvbR : visitedBlocks { cfg with code_type := "raw" } dsize bg query =
      visitedBlocks cfg dsize bg query := rfl
  have hannM : annN { cfg with code_type := "micro_index" } dsize = annN cfg dsize := rfl
  have hannR : annN { cfg with code_type := "raw" } dsize = annN cfg dsize := rfl
  simp only [searchOne, hvbM, hvbR, hannM, hannR, scanBlocksFold_eq,
    finalize_found_neighbors, finalize_found_scores, finalize_blocks_visited,
    finalize_portal_steps, finalize_internal_reads, finalize_distances_computed]
  refine ⟨?_, ?_, ?_, ?_, ?_, ?_, ?_, ?_, ?_⟩ <;> try trivial
  intro b hb vid hvid
  simp only [scannedDistIds, List.mem_flatMap]
  exact ⟨b, hb, List.mem_map.mpr ⟨vid, by simpa using hvid, rfl⟩⟩

theorem readFloats_append (v : Vec) (r : List Tok) :
    readFloats v.length (v.map Tok.f32 ++ r) = some (v, r) := by
  induction v with
  | nil => rfl
  | cons x xs ih => simp [readFloats, readF32, ih]

theorem readVectors_append (vs : List Vec) (dim : ℕ) (r : List Tok)
    (h : ∀ v ∈ vs, v.length = dim) :
    readVectors vs.length dim (vs.flatMap (fun v => v.map Tok.f32) ++ r) =
      some (vs, r) := by
  induction vs with
  | nil => rfl
  | cons v vs ih =>
    have hv : v.length = dim := h v (by simp)
    have ih' := ih (fun w hw => h w (by simp [hw]))
    have hf := readFloats_append v ((vs.flatMap fun v => List.map Tok.f32 v) ++ r)
    rw [hv] at hf
    simp only [List.flatMap_cons, List.append_assoc, List.length_cons, readVectors, hf, ih']

theorem readIds_append (l : List ℕ) (r : List Tok) :
    readIds l.length (l.map Tok.u64 ++ r) = some (l, r) := by
  induction l with
  | nil => rfl
  | cons x xs ih => simp [readIds, readU64, ih]

theorem readLayer_append (lst : List ℕ) (r : List Tok) :
    readLayer (layerToks lst ++ r) = some (lst, r) := by
  simp [layerToks, readLayer, readU64, readIds_append]

theorem readLayers_append (ls : List (List ℕ)) (r : List Tok) :
    readLayers ls.length (ls.flatMap layerToks ++ r) = some (ls, r) := by
  induction ls with
  | nil => rfl
  | cons lst ls ih =>
    simp only [List.flatMap_cons, List.append_assoc, List.length_cons, readLayers,
      readLayer_append, ih]

theorem readNode_append (n : HNode) (r : List Tok) :
    readNode (nodeToks n ++ r) = some (n, r) := by
  simp [nodeToks, readNode, readU64, readLayers_append]

theorem readNodes_append (ns : List HNode) (r : List Tok) :
    readNodes ns.length (ns.flatMap nodeToks ++ r) = some (ns, r) := by
  induction ns with
  | nil => rfl
  | cons n ns ih =>
    simp only [List.flatMap_cons, List.append_assoc, List.length_cons, readNodes,
      readNode_append, ih]

theorem tagToMetric_metricTag (m : DistanceMetric) : tagToMetric (metricTag m) = m := by
  cases m <;> rfl

/-- C4: saving a state whose payloads all have the declared dimension
(the data-model invariant of any freshly built index) and loading the
stream back yields exactly the original state — identical adjacency at
every node and layer, identical entry point and max layer — and hence
identical search results (in particular top-1) for every query. -/
theorem C4_save_load_round_trip (g : HNSW)
    (hdim : ∀ v ∈ g.vectors, v.length = g.dim) :
    hnswLoad (hnswSave g) = some g ∧
    ∀ g', hnswLoad (hnswSave g) = some g' →
      ∀ sqrtFn q k ef, searchH sqrtFn g' q k ef = searchH sqrtFn g q k ef := by
  have hload : hnswLoad (hnswSave g) = some g := by
    simp only [hnswSave, List.cons_append, List.nil_append]
    simp only [hnswLoad, readU64, readI32]
    rw [readVectors_append g.vectors g.dim _ hdim]
    simp only [readU64]
    rw [show g.nodes.flatMap nodeToks = g.nodes.flatMap nodeToks ++ [] by simp,
      readNodes_append, tagToMetric_metricTag]
  refine ⟨hload, fun g' h => ?_⟩
  rw [hload] at h
  injection h with h'
  rw [h']
  exact fun _ _ _ _ => rfl

/-- Witness for C4: the concrete freshly built 1-D index `c4wg`. -/
theorem C4_save_load_round_trip_witness :
    (∀ v ∈ c4wg.vectors, v.length = c4wg.dim) ∧
    (hnswLoad (hnswSave c4wg) = some c4wg ∧
     ∀ g', hnswLoad (hnswSave c4wg) = some g' →
       ∀ sqrtFn q k ef, searchH sqrtFn g' q k ef = searchH sqrtFn c4wg q k ef) :=
  ⟨by decide, C4_save_load_round_trip c4wg (by decide)⟩

theorem mem_insSorted (x a : ℚ × ℕ) : ∀ l : List (ℚ × ℕ),
    a ∈ insSorted x l → a = x ∨ a ∈ l := by
  intro l
  induction l with
  | nil => intro h; simp [insSorted] at h; exact Or.inl h
  | cons y ys ih =>
    intro h
    simp only [insSorted] at h
    split at h
    · rcases List.mem_cons.mp h with h1 | h1
      · exact Or.inl h1
      · exact Or.inr h1
    · rcases List.mem_cons.mp h with h1 | h1
      · exact Or.inr (List.mem_cons.mpr (Or.inl h1))
      · rcases ih h1 with h2 | h2
        · exact Or.inl h2
        · exact Or.inr (List.mem_cons.mpr (Or.inr h2))

theorem expandStep_bound (sqrtFn : ℚ → ℚ) (g : HNSW) (q : Vec) (ef K : ℕ)
    (st : List (ℚ × ℕ) × List (ℚ × ℕ) × List ℕ) (nb : ℕ) (hnb : nb < K)
    (h1 : ∀ p ∈ st.1, p.2 < K) (h2 : ∀ p ∈ st.2.1, p.2 < K) :
    (∀ p ∈ (expandStep sqrtFn g q ef st nb).1, p.2 < K) ∧
    (∀ p ∈ (expandStep sqrtFn g q ef st nb).2.1, p.2 < K) := by
  obtain ⟨cand, top, vis⟩ := st
  simp only [expandStep] at *
  split
  · exact ⟨h1, h2⟩
  · split
    · constructor
      · intro p hp
        rcases mem_insSorted _ _ _ hp with h | h
        · subst h; exact hnb
        · exact h1 p h
      · intro p hp
        have hp' : p ∈ insSorted (distQ sqrtFn g q nb, nb) top := by
          rcases Decidable.em
              (ef < (insSorted (distQ sqrtFn g q nb, nb) top).length) with he | he
          · rw [if_pos he] at hp; exact List.dropLast_subset _ hp
          · rwa [if_neg he] at hp
        rcases mem_insSorted _ _ _ hp' with h | h
        · subst h; exact hnb
        · exact h2 p h
    · exact ⟨h1, h2⟩

theorem expandFold_bound (sqrtFn : ℚ → ℚ) (g : HNSW) (q : Vec) (ef K : ℕ)
    (nl : List ℕ) (hnl : ∀ x ∈ nl, x < K) :
    ∀ st : List (ℚ × ℕ) × List (ℚ × ℕ) × List ℕ,
      (∀ p ∈ st.1, p.2 < K) → (∀ p ∈ st.2.1, p.2 < K) →
      (∀ p ∈ (nl.foldl (expandStep sqrtFn g q ef) st).1, p.2 < K) ∧
      (∀ p ∈ (nl.foldl (expandStep sqrtFn g q ef) st).2.1, p.2 < K) := by
  induction nl with
  | nil => intro st h1 h2; exact ⟨h1, h2⟩
  | cons nb rest ih =>
    intro st h1 h2
    have hnb : nb < K := hnl nb (by simp)
    have hstep := expandStep_bound sqrtFn g q ef K st nb hnb h1 h2
    exact ih (fun x hx => hnl x (by simp [hx])) _ hstep.1 hstep.2

theorem searchLayerGo_bound (sqrtFn : ℚ → ℚ) (g : HNSW) (q : Vec) (layer ef K : ℕ)
    (hadj : ∀ i x, x ∈ nbrsAt g i layer → x < K) :
    ∀ (fuel : ℕ) (cand top : List (ℚ × ℕ)) (vis : List ℕ),
      (∀ p ∈ cand, p.2 < K) → (∀ p ∈ top, p.2 < K) →
      ∀ p ∈ searchLayerGo sqrtFn g q layer ef fuel cand top vis, p.2 < K := by
  intro fuel
  induction fuel with
  | zero => intro cand top vis _ h2; exact h2
  | succ n ih =>
    intro cand top vis h1 h2
    cases cand with
    | nil => simpa [searchLayerGo] using h2
    | cons c rest =>
      simp only [searchLayerGo]
      split
      · exact h2
      · split
        · exact ih rest top vis (fun p hp => h1 p (List.mem_cons_of_mem c hp)) h2
        · have hrest : ∀ p ∈ rest, p.2 < K := fun p hp => h1 p (List.mem_cons_of_mem c hp)
          have hnl : ∀ x ∈ (getNode g c.2).neighbors.getD layer [], x < K :=
            fun x hx => hadj c.2 x hx
          have hf := expandFold_bound sqrtFn g q ef K _ hnl (rest, top, vis) hrest h2
          exact ih _ _ _ hf.1 hf.2

theorem searchLayer_bound (sqrtFn : ℚ → ℚ) (g : HNSW) (q : Vec) (ep ef layer K : ℕ)
    (hadj : ∀ i x, x ∈ nbrsAt g i layer → x < K) (hep : ep < K) :
    ∀ p ∈ searchLayer sqrtFn g q ep ef layer, p.1 < K := by
  intro p hp
  unfold searchLayer at hp
  split at hp
  · simp at hp
  · obtain ⟨p', hp', rfl⟩ := List.mem_map.mp hp
    exact searchLayerGo_bound sqrtFn g q layer ef K hadj _ _ _ _
      (by intro r hr; simp at hr; rw [hr]; exact hep)
      (by intro r hr; simp at hr; rw [hr]; exact hep) p' hp'

theorem selectPhase1_sub (sqrtFn : ℚ → ℚ) (g : HNSW) (mk : ℕ) :
    ∀ (cands : List (ℕ × ℚ)) (acc : List ℕ),
      ∀ x ∈ selectPhase1 sqrtFn g mk cands acc, x ∈ acc ∨ x ∈ cands.map Prod.fst := by
  intro cands
  induction cands with
  | nil => intro acc x hx; exact Or.inl hx
  | cons c rest ih =>
    intro acc x hx
    simp only [selectPhase1] at hx
    split at hx
    · exact Or.inl hx
    · split at hx
      · rcases ih _ x hx with h | h
        · rcases List.mem_append.mp h with h1 | h1
          · exact Or.inl h1
          · simp at h1; subst h1; exact Or.inr (by simp)
        · exact Or.inr (by simp [h])
      · rcases ih _ x hx with h | h
        · exact Or.inl h
        · exact Or.inr (by simp [h])

theorem selectPhase2_sub (mk : ℕ) :
    ∀ (cands : List (ℕ × ℚ)) (acc : List ℕ),
      ∀ x ∈ selectPhase2 mk cands acc, x ∈ acc ∨ x ∈ cands.map Prod.fst := by
  intro cands
  induction cands with
  | nil => intro acc x hx; exact Or.inl hx
  | cons c rest ih =>
    intro acc x hx
    simp only [selectPhase2] at hx
    split at hx
    · exact Or.inl hx
    · split at hx
      · rcases ih _ x hx with h | h
        · exact Or.inl h
        · exact Or.inr (by simp [h])
      · rcases ih _ x hx with h | h
        · rcases List.mem_append.mp h with h1 | h1
          · exact Or.inl h1
          · simp at h1; subst h1; exact Or.inr (by simp)
        · exact Or.inr (by simp [h])

theorem selectPhase1_len (sqrtFn : ℚ → ℚ) (g : HNSW) (mk : ℕ) :
    ∀ (cands : List (ℕ × ℚ)) (acc : List ℕ), acc.length ≤ mk →
      (selectPhase1 sqrtFn g mk cands acc).length ≤ mk := by
  intro cands
  induction cands with
  | nil => intro acc h; exact h
  | cons c rest ih =>
    intro acc h
    simp only [selectPhase1]
    split
    · exact h
    · next hfull =>
      split
      · exact ih _ (by simp; omega)
      · exact ih _ h

theorem selectPhase2_len (mk : ℕ) :
    ∀ (cands : List (ℕ × ℚ)) (acc : List ℕ), acc.length ≤ mk →
      (selectPhase2 mk cands acc).length ≤ mk := by
  intro cands
  induction cands with
  | nil => intro acc h; exact h
  | cons c rest ih =>
    intro acc h
    simp only [selectPhase2]
    split
    · exact h
    · next hfull =>
      split
      · exact ih _ h
      · exact ih _ (by simp; omega)

theorem select_neighbors_sub (sqrtFn : ℚ → ℚ) (g : HNSW)
    (cands : List (ℕ × ℚ)) (M : ℕ) :
    ∀ x ∈ select_neighbors_heuristic sqrtFn g cands M, x ∈ cands.map Prod.fst := by
  intro x hx
  unfold select_neighbors_heuristic at hx
  split at hx
  · simp at hx
  · have hperm : (cands.insertionSort fun a b => a.2 ≤ b.2).Perm cands :=
      List.perm_insertionSort _ _
    rcases selectPhase2_sub _ _ _ x hx with h | h
    · rcases selectPhase1_sub sqrtFn g _ _ _ x h with h1 | h1
      · simp at h1
      · obtain ⟨p, hp, rfl⟩ := List.mem_map.mp h1
        exact List.mem_map.mpr ⟨p, hperm.mem_iff.mp hp, rfl⟩
    · obtain ⟨p, hp, rfl⟩ := List.mem_map.mp h
      exact List.mem_map.mpr ⟨p, hperm.mem_iff.mp hp, rfl⟩

theorem select_neighbors_len (sqrtFn : ℚ → ℚ) (g : HNSW)
    (cands : List (ℕ × ℚ)) (M : ℕ) :
    (select_neighbors_heuristic sqrtFn g cands M).length ≤ M := by
  unfold select_neighbors_heuristic
  split
  · simp
  · refine le_trans (selectPhase2_len _ _ _ (selectPhase1_len _ _ _ _ _ (by simp))) ?_
    exact min_le_left _ _

theorem greedyDescend_bound (sqrtFn : ℚ → ℚ) (g : HNSW) (vec : Vec) (K : ℕ)
    (hadj : ∀ i l x, x ∈ nbrsAt g i l → x < K) :
    ∀ (L : List ℕ) (ep : ℕ), ep < K →
      (L.foldl (fun ep l =>
        match searchLayer sqrtFn g vec ep 1 l with
        | [] => ep
        | r :: _ => r.1) ep) < K := by
  intro L
  induction L with
  | nil => intro ep h; exact h
  | cons l rest ih =>
    intro ep h
    simp only [List.foldl_cons]
    apply ih
    cases hs : searchLayer sqrtFn g vec ep 1 l with
    | nil => exact h
    | cons r rs =>
      exact searchLayer_bound sqrtFn g vec ep 1 l K (fun i x hx => hadj i l x hx) h r
        (by rw [hs]; simp)

theorem nbrsAt_set_self (g : HNSW) (i l : ℕ) (n : HNode) (hi : i < g.nodes.length) :
    nbrsAt { g with nodes := g.nodes.set i n } i l = n.neighbors.getD l [] := by
  simp [nbrsAt, getNode, List.getD_eq_getElem?_getD, List.getElem?_set_self hi]

theorem nbrsAt_set_ne (g : HNSW) (i j l : ℕ) (n : HNode) (hij : i ≠ j) :
    nbrsAt { g with nodes := g.nodes.set i n } j l = nbrsAt g j l := by
  simp [nbrsAt, getNode, List.getD_eq_getElem?_getD, List.getElem?_set_ne hij]

theorem getD_set_layers (nbrs : List (List ℕ)) (l l' : ℕ) (lst : List ℕ)
    (hne : l' ≠ l) : (nbrs.set l lst).getD l' [] = nbrs.getD l' [] := by
  simp [List.getD_eq_getElem?_getD, List.getElem?_set_ne (fun h => hne h.symm)]

theorem getD_growLayers (n : HNode) (k l : ℕ) :
    (growLayersTo n k).neighbors.getD l [] = n.neighbors.getD l [] := by
  simp only [growLayersTo]
  exact getD_growTo n.neighbors k [] l

theorem getD_set_self_of_lt (L : List α) (i : ℕ) (a pad : α) (h : i < L.length) :
    (L.set i a).getD i pad = a := by
  simp [List.getD_eq_getElem?_getD, List.getElem?_set_self h]

theorem setLayer_getD_self (n : HNode) (l : ℕ) (lst : List ℕ)
    (hl : l < n.neighbors.length) :
    (setLayerList n l lst).neighbors.getD l [] = lst := by
  simp only [setLayerList]
  exact getD_set_self_of_lt _ _ _ _ hl

theorem grow_branch_len (n : HNode) (l : ℕ) :
    l < (if n.neighbors.length ≤ l then growLayersTo n (l + 1) else n).neighbors.length := by
  split
  · simp only [growLayersTo, length_growTo]; omega
  · omega

theorem getD_eq_default_of_le (L : List α) (i : ℕ) (pad : α) (h : L.length ≤ i) :
    L.getD i pad = pad := by
  simp [List.getD_eq_getElem?_getD, List.getElem?_eq_none h]

theorem nbrsAt_out_of_range (g : HNSW) (i l : ℕ) (h : g.nodes.length ≤ i) :
    nbrsAt g i l = [] := by
  simp [nbrsAt, getNode, List.getElem?_eq_none h]

theorem grow_branch_getD (n : HNode) (l : ℕ) :
    (if n.neighbors.length ≤ l then growLayersTo n (l + 1) else n).neighbors.getD l [] =
      n.neighbors.getD l [] := by
  split
  · exact getD_growLayers n (l + 1) l
  · rfl

/-- The neighbour-side symmetric update always leaves the updated list
within the layer cap: the push either stays at or below the cap or is
immediately re-pruned by the heuristic selector. -/
theorem neighborUpdate_cap (sqrtFn : ℚ → ℚ) (g : HNSW) (K l nb : ℕ) :
    (nbrsAt (neighborSymmetricUpdate sqrtFn g K l nb) nb l).length ≤ layerCap g.M l := by
  by_cases hnb : nb < g.nodes.length
  · simp only [neighborSymmetricUpdate]
    rw [nbrsAt_set_self _ _ _ _ hnb, setLayer_getD_self _ _ _ (grow_branch_len _ _),
      grow_branch_getD]
    split
    · exact select_neighbors_len _ _ _ _
    · next h => omega
  · have hset : ∀ n' : HNode, g.nodes.set nb n' = g.nodes :=
      fun n' => List.set_eq_of_length_le (by omega)
    simp only [neighborSymmetricUpdate, hset]
    rw [show ({ g with nodes := g.nodes } : HNSW) = g from rfl,
      nbrsAt_out_of_range g nb l (by omega)]
    simp

theorem map_pair_fst (L : List ℕ) (f : ℕ → ℚ) :
    (L.map fun nid => (nid, f nid)).map Prod.fst = L := by
  induction L with
  | nil => rfl
  | cons a as ih => simp [ih]

theorem neighborUpdate_sub (sqrtFn : ℚ → ℚ) (g : HNSW) (K l nb : ℕ)
    (hnb : nb < g.nodes.length) :
    ∀ x ∈ nbrsAt (neighborSymmetricUpdate sqrtFn g K l nb) nb l,
      x ∈ nbrsAt g nb l ++ [K] := by
  intro x hx
  simp only [neighborSymmetricUpdate] at hx
  rw [nbrsAt_set_self _ _ _ _ hnb, setLayer_getD_self _ _ _ (grow_branch_len _ _),
    grow_branch_getD] at hx
  revert hx
  split
  · intro hx
    have h := select_neighbors_sub _ _ _ _ x hx
    rw [map_pair_fst] at h
    exact h
  · exact fun hx => hx

theorem neighborUpdate_frame_ne (sqrtFn : ℚ → ℚ) (g : HNSW) (K l nb i l' : ℕ)
    (hne : i ≠ nb) :
    nbrsAt (neighborSymmetricUpdate sqrtFn g K l nb) i l' = nbrsAt g i l' := by
  simp only [neighborSymmetricUpdate]
  exact nbrsAt_set_ne _ _ _ _ _ (fun h => hne h.symm)

theorem neighborUpdate_frame_layer (sqrtFn : ℚ → ℚ) (g : HNSW) (K l nb l' : ℕ)
    (hne : l' ≠ l) :
    nbrsAt (neighborSymmetricUpdate sqrtFn g K l nb) nb l' = nbrsAt g nb l' := by
  by_cases hnb : nb < g.nodes.length
  · simp only [neighborSymmetricUpdate]
    rw [nbrsAt_set_self _ _ _ _ hnb]
    simp only [setLayerList]
    rw [getD_set_layers _ _ _ _ hne]
    split
    · exact getD_growLayers _ _ _
    · rfl
  · have hset : ∀ n' : HNode, g.nodes.set nb n' = g.nodes :=
      fun n' => List.set_eq_of_length_le (by omega)
    simp only [neighborSymmetricUpdate, hset]

theorem neighborUpdate_getNode_ne (sqrtFn : ℚ → ℚ) (g : HNSW) (K l nb i : ℕ)
    (hne : i ≠ nb) :
    getNode (neighborSymmetricUpdate sqrtFn g K l nb) i = getNode g i := by
  simp only [neighborSymmetricUpdate, getNode, List.getD_eq_getElem?_getD]
  rw [List.getElem?_set_ne (fun h => hne h.symm)]

theorem neighborUpdate_M (sqrtFn : ℚ → ℚ) (g : HNSW) (K l nb : ℕ) :
    (neighborSymmetricUpdate sqrtFn g K l nb).M = g.M := rfl

theorem neighborUpdate_scalar (sqrtFn : ℚ → ℚ) (g : HNSW) (K l nb : ℕ) :
    (neighborSymmetricUpdate sqrtFn g K l nb).nodes.length = g.nodes.length ∧
    (neighborSymmetricUpdate sqrtFn g K l nb).entry_point = g.entry_point ∧
    (neighborSymmetricUpdate sqrtFn g K l nb).max_layer = g.max_layer ∧
    (neighborSymmetricUpdate sqrtFn g K l nb).vectors = g.vectors := by
  refine ⟨?_, rfl, rfl, rfl⟩
  simp [neighborSymmetricUpdate]

theorem pushSelf_nbrsAt_self (g : HNSW) (K l nb : ℕ) (hK : K < g.nodes.length)
    (hl : l < (getNode g K).neighbors.length) :
    nbrsAt (pushSelfNeighbor g K l nb) K l = nbrsAt g K l ++ [nb] := by
  simp only [pushSelfNeighbor]
  rw [nbrsAt_set_self _ _ _ _ hK, setLayer_getD_self _ _ _ hl]
  rfl

theorem pushSelf_frame (g : HNSW) (K l nb i l' : ℕ) (hne : i ≠ K ∨ l' ≠ l) :
    nbrsAt (pushSelfNeighbor g K l nb) i l' = nbrsAt g i l' := by
  rcases hne with hne | hne
  · simp only [pushSelfNeighbor]
    exact nbrsAt_set_ne _ _ _ _ _ (fun h => hne h.symm)
  · by_cases hi : i = K
    · subst hi
      by_cases hK : i < g.nodes.length
      · simp only [pushSelfNeighbor]
        rw [nbrsAt_set_self _ _ _ _ hK]
        simp only [setLayerList]
        exact getD_set_layers _ _ _ _ hne
      · have hset : ∀ n' : HNode, g.nodes.set i n' = g.nodes :=
          fun n' => List.set_eq_of_length_le (by omega)
        simp only [pushSelfNeighbor, hset]
    · simp only [pushSelfNeighbor]
      exact nbrsAt_set_ne _ _ _ _ _ (fun h => hi h.symm)

theorem pushSelf_layers_len (g : HNSW) (K l nb : ℕ) (hK : K < g.nodes.length) :
    (getNode (pushSelfNeighbor g K l nb) K).neighbors.length =
      (getNode g K).neighbors.length := by
  simp only [pushSelfNeighbor, getNode, List.getD_eq_getElem?_getD]
  rw [List.getElem?_set_self hK]
  simp [setLayerList]

theorem pushSelf_scalar (g : HNSW) (K l nb : ℕ) :
    (pushSelfNeighbor g K l nb).M = g.M ∧
    (pushSelfNeighbor g K l nb).nodes.length = g.nodes.length ∧
    (pushSelfNeighbor g K l nb).entry_point = g.entry_point ∧
    (pushSelfNeighbor g K l nb).max_layer = g.max_layer ∧
    (pushSelfNeighbor g K l nb).vectors = g.vectors := by
  refine ⟨rfl, ?_, rfl, rfl, rfl⟩
  simp [pushSelfNeighbor]

theorem ensureSelf_nbrsAt (g : HNSW) (K l i l' : ℕ) :
    nbrsAt (ensureSelfLayer g K l) i l' = nbrsAt g i l' := by
  by_cases hi : i = K
  · subst hi
    by_cases hK : i < g.nodes.length
    · simp only [ensureSelfLayer]
      rw [nbrsAt_set_self _ _ _ _ hK]
      split
      · exact getD_growLayers _ _ _
      · rfl
    · have hset : ∀ n' : HNode, g.nodes.set i n' = g.nodes :=
        fun n' => List.set_eq_of_length_le (by omega)
      simp only [ensureSelfLayer, hset]
  · simp only [ensureSelfLayer]
    exact nbrsAt_set_ne _ _ _ _ _ (fun h => hi h.symm)

theorem ensureSelf_layers_len (g : HNSW) (K l : ℕ) (hK : K < g.nodes.length) :
    l < (getNode (ensureSelfLayer g K l) K).neighbors.length := by
  simp only [ensureSelfLayer, getNode, List.getD_eq_getElem?_getD]
  rw [List.getElem?_set_self hK]
  simp only [Option.getD_some]
  exact grow_branch_len _ _

theorem ensureSelf_scalar (g : HNSW) (K l : ℕ) :
    (ensureSelfLayer g K l).M = g.M ∧
    (ensureSelfLayer g K l).nodes.length = g.nodes.length ∧
    (ensureSelfLayer g K l).entry_point = g.entry_point ∧
    (ensureSelfLayer g K l).max_layer = g.max_layer ∧
    (ensureSelfLayer g K l).vectors = g.vectors := by
  refine ⟨rfl, ?_, rfl, rfl, rfl⟩
  simp [ensureSelfLayer]

theorem connectOne_scalar (sqrtFn : ℚ → ℚ) (g : HNSW) (K l nb : ℕ) :
    (connectOneNeighbor sqrtFn g K l nb).M = g.M ∧
    (connectOneNeighbor sqrtFn g K l nb).nodes.length = g.nodes.length ∧
    (connectOneNeighbor sqrtFn g K l nb).entry_point = g.entry_point ∧
    (connectOneNeighbor sqrtFn g K l nb).max_layer = g.max_layer ∧
    (connectOneNeighbor sqrtFn g K l nb).vectors = g.vectors := by
  unfold connectOneNeighbor
  have h1 := neighborUpdate_scalar sqrtFn (pushSelfNeighbor g K l nb) K l nb
  have h2 := pushSelf_scalar g K l nb
  refine ⟨rfl, ?_, ?_, ?_, ?_⟩ <;> simp [h1.1, h1.2.1, h1.2.2.1, h1.2.2.2,
    h2.2.1, h2.2.2.1, h2.2.2.2.1, h2.2.2.2.2]

theorem connectOne_nbrsAt_other (sqrtFn : ℚ → ℚ) (g : HNSW) (K l nb i l' : ℕ)
    (hnbK : nb ≠ K) (hK : ¬(i = K ∧ l' = l)) (hnb : ¬(i = nb ∧ l' = l)) :
    nbrsAt (connectOneNeighbor sqrtFn g K l nb) i l' = nbrsAt g i l' := by
  unfold connectOneNeighbor
  by_cases hinb : i = nb
  · subst hinb
    have hll : l' ≠ l := fun h => hnb ⟨rfl, h⟩
    rw [neighborUpdate_frame_layer _ _ _ _ _ _ hll]
    exact pushSelf_frame _ _ _ _ _ _ (Or.inl hnbK)
  · rw [neighborUpdate_frame_ne _ _ _ _ _ _ _ hinb]
    by_cases hiK : i = K
    · subst hiK
      exact pushSelf_frame _ _ _ _ _ _ (Or.inr (fun h => hK ⟨rfl, h⟩))
    · exact pushSelf_frame _ _ _ _ _ _ (Or.inl hiK)

theorem connectOne_self (sqrtFn : ℚ → ℚ) (g : HNSW) (K l nb : ℕ)
    (hnbK : nb ≠ K) (hKlen : K < g.nodes.length)
    (hl : l < (getNode g K).neighbors.length) :
    nbrsAt (connectOneNeighbor sqrtFn g K l nb) K l = nbrsAt g K l ++ [nb] := by
  unfold connectOneNeighbor
  rw [neighborUpdate_frame_ne _ _ _ _ _ _ _ (fun h => hnbK h.symm)]
  exact pushSelf_nbrsAt_self g K l nb hKlen hl

theorem connectFold_inner (sqrtFn : ℚ → ℚ) (K l : ℕ) :
    ∀ (neigh : List ℕ) (g : HNSW),
      K < g.nodes.length →
      l < (getNode g K).neighbors.length →
      (∀ x ∈ neigh, x < K) →
      (nbrsAt g K l).length + neigh.length ≤ layerCap g.M l →
      (∀ i l', ¬(i = K ∧ l' = l) → (nbrsAt g i l').length ≤ layerCap g.M l') →
      (∀ i l' x, x ∈ nbrsAt g i l' → x < K + 1) →
      (∀ i, K + 1 ≤ i → ∀ l', nbrsAt g i l' = []) →
      (∀ l', l' < l → nbrsAt g K l' = []) →
      (∀ l', l' < l → ∀ i x, x ∈ nbrsAt g i l' → x < K) →
      ((neigh.foldl (fun h nb => connectOneNeighbor sqrtFn h K l nb) g).M = g.M ∧
       (neigh.foldl (fun h nb => connectOneNeighbor sqrtFn h K l nb) g).nodes.length =
         g.nodes.length ∧
       (neigh.foldl (fun h nb => connectOneNeighbor sqrtFn h K l nb) g).entry_point =
         g.entry_point ∧
       (neigh.foldl (fun h nb => connectOneNeighbor sqrtFn h K l nb) g).max_layer =
         g.max_layer ∧
       (neigh.foldl (fun h nb => connectOneNeighbor sqrtFn h K l nb) g).vectors =
         g.vectors ∧
       (∀ i l', (nbrsAt (neigh.foldl (fun h nb => connectOneNeighbor sqrtFn h K l nb) g)
          i l').length ≤ layerCap g.M l') ∧
       (∀ i l' x, x ∈ nbrsAt (neigh.foldl (fun h nb => connectOneNeighbor sqrtFn h K l nb) g)
          i l' → x < K + 1) ∧
       (∀ i, K + 1 ≤ i → ∀ l', nbrsAt
          (neigh.foldl (fun h nb => connectOneNeighbor sqrtFn h K l nb) g) i l' = []) ∧
       (∀ l', l' < l → nbrsAt
          (neigh.foldl (fun h nb => connectOneNeighbor sqrtFn h K l nb) g) K l' = []) ∧
       (∀ l', l' < l → ∀ i x, x ∈ nbrsAt
          (neigh.foldl (fun h nb => connectOneNeighbor sqrtFn h K l nb) g) i l' → x < K)) := by
  intro neigh
  induction neigh with
  | nil =>
    intro g hKlen hl hneigh hself hcap hbnd hfresh hfreshK hstrict
    refine ⟨rfl, rfl, rfl, rfl, rfl, ?_, hbnd, hfresh, hfreshK, hstrict⟩
    intro i l'
    by_cases hKl : i = K ∧ l' = l
    · obtain ⟨rfl, rfl⟩ := hKl; simpa using hself
    · exact hcap i l' hKl
  | cons nb rest ih =>
    intro g hKlen hl hneigh hself hcap hbnd hfresh hfreshK hstrict
    have hnbK : nb < K := hneigh nb (by simp)
    have hnbne : nb ≠ K := by omega
    have hnblen : nb < g.nodes.length := by omega
    have hco := connectOne_scalar sqrtFn g K l nb
    have hpu := pushSelf_scalar g K l nb
    -- the new self list
    have hselfeq : nbrsAt (connectOneNeighbor sqrtFn g K l nb) K l =
        nbrsAt g K l ++ [nb] := connectOne_self sqrtFn g K l nb hnbne hKlen hl
    -- the updated neighbour list facts, transported through the push
    have hpushnb : nbrsAt (pushSelfNeighbor g K l nb) nb l = nbrsAt g nb l :=
      pushSelf_frame _ _ _ _ _ _ (Or.inl hnbne)
    have hpushlen : nb < (pushSelfNeighbor g K l nb).nodes.length := by
      rw [hpu.2.1]; omega
    have hnbcap : (nbrsAt (connectOneNeighbor sqrtFn g K l nb) nb l).length ≤
        layerCap g.M l := by
      have h := neighborUpdate_cap sqrtFn (pushSelfNeighbor g K l nb) K l nb
      rwa [show (pushSelfNeighbor g K l nb).M = g.M from rfl] at h
    have hnbsub : ∀ x ∈ nbrsAt (connectOneNeighbor sqrtFn g K l nb) nb l,
        x ∈ nbrsAt g nb l ++ [K] := by
      intro x hx
      have h := neighborUpdate_sub sqrtFn (pushSelfNeighbor g K l nb) K l nb hpushlen x hx
      rwa [hpushnb] at h
    simp only [List.foldl_cons]
    have hmain := ih (connectOneNeighbor sqrtFn g K l nb)
      (by rw [hco.2.1]; exact hKlen)
      (by
        unfold connectOneNeighbor
        rw [neighborUpdate_getNode_ne _ _ _ _ _ _ hnbne.symm]
        rw [pushSelf_layers_len g K l nb hKlen]
        exact hl)
      (fun x hx => hneigh x (by simp [hx]))
      (by
        rw [hselfeq, hco.1]
        simp at hself ⊢
        omega)
      (by
        intro i l' hne
        rw [hco.1]
        by_cases hinb : i = nb ∧ l' = l
        · obtain ⟨rfl, rfl⟩ := hinb; exact hnbcap
        · rw [connectOne_nbrsAt_other sqrtFn g K l nb i l' hnbne hne hinb]
          exact hcap i l' hne)
      (by
        intro i l' x hx
        by_cases hiK : i = K ∧ l' = l
        · obtain ⟨rfl, rfl⟩ := hiK
          rw [hselfeq] at hx
          rcases List.mem_append.mp hx with h | h
          · exact hbnd _ _ _ h
          · simp at h; omega
        · by_cases hinb : i = nb ∧ l' = l
          · obtain ⟨rfl, rfl⟩ := hinb
            rcases List.mem_append.mp (hnbsub x hx) with h | h
            · exact hbnd _ _ _ h
            · simp at h; omega
          · rw [connectOne_nbrsAt_other sqrtFn g K l nb i l' hnbne hiK hinb] at hx
            exact hbnd _ _ _ hx)
      (by
        intro i hi l'
        have hiK : ¬(i = K ∧ l' = l) := by rintro ⟨rfl, _⟩; omega
        have hinb : ¬(i = nb ∧ l' = l) := by rintro ⟨rfl, _⟩; omega
        rw [connectOne_nbrsAt_other sqrtFn g K l nb i l' hnbne hiK hinb]
        exact hfresh i hi l')
      (by
        intro l' hl'
        have hiK : ¬(K = K ∧ l' = l) := by rintro ⟨_, rfl⟩; omega
        have hinb : ¬(K = nb ∧ l' = l) := by rintro ⟨rfl, _⟩; omega
        rw [connectOne_nbrsAt_other sqrtFn g K l nb K l' hnbne hiK hinb]
        exact hfreshK l' hl')
      (by
        intro l' hl' i x hx
        have hiK : ¬(i = K ∧ l' = l) := by rintro ⟨_, rfl⟩; omega
        have hinb : ¬(i = nb ∧ l' = l) := by rintro ⟨_, rfl⟩; omega
        rw [connectOne_nbrsAt_other sqrtFn g K l nb i l' hnbne hiK hinb] at hx
        exact hstrict l' hl' i x hx)
    refine ⟨?_, ?_, ?_, ?_, ?_, ?_, hmain.2.2.2.2.2.2.1, hmain.2.2.2.2.2.2.2.1,
      hmain.2.2.2.2.2.2.2.2.1, hmain.2.2.2.2.2.2.2.2.2⟩
    · rw [hmain.1, hco.1]
    · rw [hmain.2.1, hco.2.1]
    · rw [hmain.2.2.1, hco.2.2.1]
    · rw [hmain.2.2.2.1, hco.2.2.2.1]
    · rw [hmain.2.2.2.2.1, hco.2.2.2.2]
    · intro i l'
      have h := hmain.2.2.2.2.2.1 i l'
      rwa [hco.1] at h

theorem processLayer_step (sqrtFn : ℚ → ℚ) (g : HNSW) (K : ℕ) (vec : Vec) (ep l : ℕ)
    (hKlen : K < g.nodes.length) (hep : ep < K)
    (hcap : ∀ i l', (nbrsAt g i l').length ≤ layerCap g.M l')
    (hbnd : ∀ i l' x, x ∈ nbrsAt g i l' → x < K + 1)
    (hfresh : ∀ i, K + 1 ≤ i → ∀ l', nbrsAt g i l' = [])
    (hfreshK : ∀ l', l' ≤ l → nbrsAt g K l' = [])
    (hstrict : ∀ l', l' ≤ l → ∀ i x, x ∈ nbrsAt g i l' → x < K) :
    (processLayerSerial sqrtFn g K vec ep l).M = g.M ∧
    (processLayerSerial sqrtFn g K vec ep l).nodes.length = g.nodes.length ∧
    (processLayerSerial sqrtFn g K vec ep l).entry_point = g.entry_point ∧
    (processLayerSerial sqrtFn g K vec ep l).max_layer = g.max_layer ∧
    (processLayerSerial sqrtFn g K vec ep l).vectors = g.vectors ∧
    (∀ i l', (nbrsAt (processLayerSerial sqrtFn g K vec ep l) i l').length ≤
      layerCap g.M l') ∧
    (∀ i l' x, x ∈ nbrsAt (processLayerSerial sqrtFn g K vec ep l) i l' → x < K + 1) ∧
    (∀ i, K + 1 ≤ i → ∀ l', nbrsAt (processLayerSerial sqrtFn g K vec ep l) i l' = []) ∧
    (∀ l', l' < l → nbrsAt (processLayerSerial sqrtFn g K vec ep l) K l' = []) ∧
    (∀ l', l' < l → ∀ i x, x ∈ nbrsAt (processLayerSerial sqrtFn g K vec ep l) i l' →
      x < K) := by
  have hes := ensureSelf_scalar g K l
  have hesn : ∀ i l', nbrsAt (ensureSelfLayer g K l) i l' = nbrsAt g i l' :=
    fun i l' => ensureSelf_nbrsAt g K l i l'
  have hneigh : ∀ x ∈ select_neighbors_heuristic sqrtFn g
      (searchLayer sqrtFn g vec ep g.ef_construction l) (layerCap g.M l), x < K := by
    intro x hx
    have h := select_neighbors_sub _ _ _ _ x hx
    obtain ⟨p, hp, rfl⟩ := List.mem_map.mp h
    exact searchLayer_bound sqrtFn g vec ep g.ef_construction l K
      (fun i y hy => hstrict l (le_refl l) i y hy) hep p hp
  have hmain := connectFold_inner sqrtFn K l
    (select_neighbors_heuristic sqrtFn g
      (searchLayer sqrtFn g vec ep g.ef_construction l) (layerCap g.M l))
    (ensureSelfLayer g K l)
    (by rw [hes.2.1]; exact hKlen)
    (ensureSelf_layers_len g K l hKlen)
    hneigh
    (by
      rw [hesn K l, hfreshK l (le_refl l), hes.1]
      simpa using select_neighbors_len sqrtFn g _ (layerCap g.M l))
    (by intro i l' _; rw [hesn i l', hes.1]; exact hcap i l')
    (by intro i l' x hx; rw [hesn i l'] at hx; exact hbnd i l' x hx)
    (by intro i hi l'; rw [hesn i l']; exact hfresh i hi l')
    (by intro l' hl'; rw [hesn K l']; exact hfreshK l' (by omega))
    (by intro l' hl' i x hx; rw [hesn i l'] at hx; exact hstrict l' (by omega) i x hx)
  simp only [processLayerSerial]
  refine ⟨?_, ?_, ?_, ?_, ?_, ?_, hmain.2.2.2.2.2.2.1, hmain.2.2.2.2.2.2.2.1,
    hmain.2.2.2.2.2.2.2.2.1, hmain.2.2.2.2.2.2.2.2.2⟩
  · rw [hmain.1, hes.1]
  · rw [hmain.2.1, hes.2.1]
  · rw [hmain.2.2.1, hes.2.2.1]
  · rw [hmain.2.2.2.1, hes.2.2.2.1]
  · rw [hmain.2.2.2.2.1, hes.2.2.2.2]
  · intro i l'
    have h := hmain.2.2.2.2.2.1 i l'
    rwa [hes.1] at h

theorem range_reverse_succ (n : ℕ) :
    (List.range (n + 1)).reverse = n :: (List.range n).reverse := by
  rw [List.range_succ]; simp

theorem layersFold (sqrtFn : ℚ → ℚ) (K : ℕ) (vec : Vec) (ep : ℕ) :
    ∀ (t : ℕ) (g : HNSW),
      K < g.nodes.length → ep < K →
      (∀ i l', (nbrsAt g i l').length ≤ layerCap g.M l') →
      (∀ i l' x, x ∈ nbrsAt g i l' → x < K + 1) →
      (∀ i, K + 1 ≤ i → ∀ l', nbrsAt g i l' = []) →
      (∀ l', l' ≤ t → nbrsAt g K l' = []) →
      (∀ l', l' ≤ t → ∀ i x, x ∈ nbrsAt g i l' → x < K) →
      (((List.range (t + 1)).reverse.foldl
          (fun h l => processLayerSerial sqrtFn h K vec ep l) g).M = g.M ∧
       ((List.range (t + 1)).reverse.foldl
          (fun h l => processLayerSerial sqrtFn h K vec ep l) g).nodes.length =
         g.nodes.length ∧
       ((List.range (t + 1)).reverse.foldl
          (fun h l => processLayerSerial sqrtFn h K vec ep l) g).entry_point =
         g.entry_point ∧
       ((List.range (t + 1)).reverse.foldl
          (fun h l => processLayerSerial sqrtFn h K vec ep l) g).max_layer =
         g.max_layer ∧
       (∀ i l', (nbrsAt ((List.range (t + 1)).reverse.foldl
          (fun h l => processLayerSerial sqrtFn h K vec ep l) g) i l').length ≤
         layerCap g.M l') ∧
       (∀ i l' x, x ∈ nbrsAt ((List.range (t + 1)).reverse.foldl
          (fun h l => processLayerSerial sqrtFn h K vec ep l) g) i l' → x < K + 1) ∧
       (∀ i, K + 1 ≤ i → ∀ l', nbrsAt ((List.range (t + 1)).reverse.foldl
          (fun h l => processLayerSerial sqrtFn h K vec ep l) g) i l' = [])) := by
  intro t
  induction t with
  | zero =>
    intro g hKlen hep hcap hbnd hfresh hfreshK hstrict
    have hstep := processLayer_step sqrtFn g K vec ep 0 hKlen hep hcap hbnd hfresh
      hfreshK hstrict
    simpa using ⟨hstep.1, hstep.2.1, hstep.2.2.1, hstep.2.2.2.1,
      hstep.2.2.2.2.2.1, hstep.2.2.2.2.2.2.1, hstep.2.2.2.2.2.2.2.1⟩
  | succ s ih =>
    intro g hKlen hep hcap hbnd hfresh hfreshK hstrict
    rw [range_reverse_succ]
    simp only [List.foldl_cons]
    have hstep := processLayer_step sqrtFn g K vec ep (s + 1) hKlen hep hcap hbnd hfresh
      hfreshK hstrict
    have hmain := ih (processLayerSerial sqrtFn g K vec ep (s + 1))
      (by rw [hstep.2.1]; exact hKlen) hep
      (by intro i l'; have h := hstep.2.2.2.2.2.1 i l'; rwa [← hstep.1] at h)
      hstep.2.2.2.2.2.2.1
      hstep.2.2.2.2.2.2.2.1
      (fun l' hl' => hstep.2.2.2.2.2.2.2.2.1 l' (by omega))
      (fun l' hl' => hstep.2.2.2.2.2.2.2.2.2 l' (by omega))
    refine ⟨?_, ?_, ?_, ?_, ?_, hmain.2.2.2.2.2.1, hmain.2.2.2.2.2.2⟩
    · rw [hmain.1, hstep.1]
    · rw [hmain.2.1, hstep.2.1]
    · rw [hmain.2.2.1, hstep.2.2.1]
    · rw [hmain.2.2.2.1, hstep.2.2.2.1]
    · intro i l'
      have h := hmain.2.2.2.2.1 i l'
      rwa [hstep.1] at h

theorem parNodeInit_nbrsAt (g : HNSW) (id level i l : ℕ) :
    nbrsAt (parNodeInit g id level) i l = nbrsAt g i l := by
  by_cases hi : i = id
  · subst hi
    by_cases hK : i < g.nodes.length
    · simp only [parNodeInit]
      rw [nbrsAt_set_self _ _ _ _ hK]
      split
      · rw [getD_growLayers]
        rfl
      · rfl
    · have hset : ∀ n' : HNode, g.nodes.set i n' = g.nodes :=
        fun n' => List.set_eq_of_length_le (by omega)
      simp only [parNodeInit, hset]
  · simp only [parNodeInit]
    exact nbrsAt_set_ne _ _ _ _ _ (fun h => hi h.symm)

theorem parNodeInit_scalar (g : HNSW) (id level : ℕ) :
    (parNodeInit g id level).M = g.M ∧
    (parNodeInit g id level).nodes.length = g.nodes.length ∧
    (parNodeInit g id level).entry_point = g.entry_point ∧
    (parNodeInit g id level).max_layer = g.max_layer ∧
    (parNodeInit g id level).vectors = g.vectors := by
  refine ⟨rfl, ?_, rfl, rfl, rfl⟩
  simp [parNodeInit]

theorem insert_node_eq (sqrtFn : ℚ → ℚ) (g : HNSW) (K level : ℕ)
    (h : K < g.nodes.length) :
    insert_node sqrtFn g K level =
      (if (parNodeInit g K level).entry_point = U64MAX then
        { parNodeInit g K level with entry_point := K, max_layer := level }
      else
        ((if ((List.range ((min (parNodeInit g K level).max_layer level) + 1)).reverse.foldl
            (fun h l => processLayerSerial sqrtFn h K (g.vectors.getD K [])
              (greedyDescend sqrtFn (parNodeInit g K level) (g.vectors.getD K [])
                (parNodeInit g K level).entry_point
                (parNodeInit g K level).max_layer level) l)
            (parNodeInit g K level)).max_layer < level then
          { ((List.range ((min (parNodeInit g K level).max_layer level) + 1)).reverse.foldl
              (fun h l => processLayerSerial sqrtFn h K (g.vectors.getD K [])
                (greedyDescend sqrtFn (parNodeInit g K level) (g.vectors.getD K [])
                  (parNodeInit g K level).entry_point
                  (parNodeInit g K level).max_layer level) l)
              (parNodeInit g K level)) with max_layer := level, entry_point := K }
        else
          ((List.range ((min (parNodeInit g K level).max_layer level) + 1)).reverse.foldl
            (fun h l => processLayerSerial sqrtFn h K (g.vectors.getD K [])
              (greedyDescend sqrtFn (parNodeInit g K level) (g.vectors.getD K [])
                (parNodeInit g K level).entry_point
                (parNodeInit g K level).max_layer level) l)
            (parNodeInit g K level))))) := by
  simp only [insert_node, parNodeInit, if_neg (by omega : ¬ g.nodes.length ≤ K)]

theorem greedyDescend_lt (sqrtFn : ℚ → ℚ) (g : HNSW) (vec : Vec)
    (ep fromL toL K : ℕ)
    (hadj : ∀ i l x, x ∈ nbrsAt g i l → x < K) (hep : ep < K) :
    greedyDescend sqrtFn g vec ep fromL toL < K := by
  unfold greedyDescend
  exact greedyDescend_bound sqrtFn g vec K (fun i l x hx => hadj i l x hx) _ ep hep

theorem cap_of_eqM (g' : HNSW) (m i l : ℕ) (hM : g'.M = m)
    (h : (nbrsAt g' i l).length ≤ layerCap m l) :
    (nbrsAt g' i l).length ≤ layerCap g'.M l := by
  rw [hM]
  exact h

theorem insert_preserves (sqrtFn : ℚ → ℚ) (g : HNSW) (K level : ℕ)
    (hKlen : K < g.nodes.length) (hinv : SerialInv g K) :
    SerialInv (insert_node sqrtFn g K level) (K + 1) ∧
    (insert_node sqrtFn g K level).nodes.length = g.nodes.length ∧
    (insert_node sqrtFn g K level).M = g.M := by
  obtain ⟨hcap, hbnd, hfresh, hepd⟩ := hinv
  have hpn := parNodeInit_scalar g K level
  have hpnn := parNodeInit_nbrsAt g K level
  rw [insert_node_eq sqrtFn g K level hKlen]
  by_cases hemp : (parNodeInit g K level).entry_point = U64MAX
  · rw [if_pos hemp]
    refine ⟨⟨?_, ?_, ?_, ?_⟩, ?_, ?_⟩
    · intro i l
      have : nbrsAt { parNodeInit g K level with entry_point := K, max_layer := level } i l =
          nbrsAt g i l := hpnn i l
      rw [this]
      exact hcap i l
    · intro i l x hx
      have heq : nbrsAt { parNodeInit g K level with entry_point := K, max_layer := level } i l =
          nbrsAt g i l := hpnn i l
      rw [heq] at hx
      exact Nat.lt_succ_of_lt (hbnd i l x hx)
    · intro i hi l
      have heq : nbrsAt { parNodeInit g K level with entry_point := K, max_layer := level } i l =
          nbrsAt g i l := hpnn i l
      rw [heq]
      exact hfresh i (by omega) l
    · exact Or.inr (by simp)
    · simp [hpn.2.1]
    · exact hpn.1
  · rw [if_neg hemp]
    have hepK : g.entry_point < K := by
      rcases hepd with h | h
      · exfalso; apply hemp; rw [hpn.2.2.1]; exact h
      · exact h
    have hbnd1 : ∀ i l x, x ∈ nbrsAt (parNodeInit g K level) i l → x < K := by
      intro i l x hx; rw [hpnn i l] at hx; exact hbnd i l x hx
    have hepb : greedyDescend sqrtFn (parNodeInit g K level) (g.vectors.getD K [])
        (parNodeInit g K level).entry_point (parNodeInit g K level).max_layer level < K := by
      apply greedyDescend_lt _ _ _ _ _ _ K hbnd1
      rw [hpn.2.2.1]
      exact hepK
    have hfold := layersFold sqrtFn K (g.vectors.getD K [])
      (greedyDescend sqrtFn (parNodeInit g K level) (g.vectors.getD K [])
        (parNodeInit g K level).entry_point (parNodeInit g K level).max_layer level)
      (min (parNodeInit g K level).max_layer level)
      (parNodeInit g K level)
      (by rw [hpn.2.1]; exact hKlen)
      hepb
      (by intro i l; rw [hpnn i l, hpn.1]; exact hcap i l)
      (by intro i l x hx; rw [hpnn i l] at hx; exact Nat.lt_succ_of_lt (hbnd i l x hx))
      (by intro i hi l; rw [hpnn i l]; exact hfresh i (by omega) l)
      (by intro l' _; rw [hpnn K l']; exact hfresh K (le_refl K) l')
      (by intro l' _ i x hx; rw [hpnn i l'] at hx; exact hbnd i l' x hx)
    have hMeq : (parNodeInit g K level).M = g.M := hpn.1
    rw [hMeq] at hfold
    split
    · refine ⟨⟨?_, ?_, ?_, ?_⟩, ?_, ?_⟩
      · intro i l
        exact cap_of_eqM _ _ _ _ hfold.1 (hfold.2.2.2.2.1 i l)
      · intro i l x hx
        exact hfold.2.2.2.2.2.1 i l x hx
      · intro i hi l
        exact hfold.2.2.2.2.2.2 i hi l
      · exact Or.inr (by exact lt_of_eq_of_lt rfl (Nat.lt_succ_self K))
      · exact hfold.2.1.trans hpn.2.1
      · exact hfold.1
    · refine ⟨⟨?_, ?_, ?_, ?_⟩, ?_, ?_⟩
      · intro i l
        exact cap_of_eqM _ _ _ _ hfold.1 (hfold.2.2.2.2.1 i l)
      · exact hfold.2.2.2.2.2.1
      · intro i hi l
        exact hfold.2.2.2.2.2.2 i hi l
      · refine Or.inr ?_
        rw [hfold.2.2.1, hpn.2.2.1]
        omega
      · rw [hfold.2.1, hpn.2.1]
      · rw [hfold.1]

theorem getD_replicate_hnode (n i : ℕ) :
    (List.replicate n ({} : HNode)).getD i {} = {} := by
  rw [List.getD_eq_getElem?_getD]
  rcases h : (List.replicate n ({} : HNode))[i]? with _ | x
  · rfl
  · have hx : x ∈ List.replicate n ({} : HNode) := by
      obtain ⟨hlt, hget⟩ := List.getElem?_eq_some_iff.mp h
      exact hget ▸ List.getElem_mem hlt
    rw [List.eq_of_mem_replicate hx]
    rfl

theorem nbrsAt_reset (dim M efc : ℕ) (metric : DistanceMetric) (data : List Vec)
    (i l : ℕ) : nbrsAt (resetForBuild dim M efc metric data) i l = [] := by
  unfold nbrsAt getNode resetForBuild
  rw [getD_replicate_hnode]
  rfl

theorem buildFold (sqrtFn : ℚ → ℚ) (dim M efc : ℕ) (metric : DistanceMetric)
    (data : List Vec) (levels : List ℕ) :
    ∀ n, n ≤ data.length →
      SerialInv ((List.range n).foldl
        (fun g id => insert_node sqrtFn g id (levels.getD id 0))
        (resetForBuild dim M efc metric data)) n ∧
      ((List.range n).foldl
        (fun g id => insert_node sqrtFn g id (levels.getD id 0))
        (resetForBuild dim M efc metric data)).nodes.length = data.length ∧
      ((List.range n).foldl
        (fun g id => insert_node sqrtFn g id (levels.getD id 0))
        (resetForBuild dim M efc metric data)).M = M := by
  intro n
  induction n with
  | zero =>
    intro _
    refine ⟨⟨?_, ?_, ?_, ?_⟩, ?_, ?_⟩
    · intro i l
      rw [List.range_zero, List.foldl_nil, nbrsAt_reset]
      simp [layerCap]
    · intro i l x hx
      rw [List.range_zero, List.foldl_nil, nbrsAt_reset] at hx
      simp at hx
    · intro i _ l
      rw [List.range_zero, List.foldl_nil, nbrsAt_reset]
    · exact Or.inl rfl
    · simp [resetForBuild]
    · rfl
  | succ n ih =>
    intro hn
    have ihn := ih (by omega)
    rw [List.range_succ, List.foldl_append, List.foldl_cons, List.foldl_nil]
    have hins := insert_preserves sqrtFn
      ((List.range n).foldl
        (fun g id => insert_node sqrtFn g id (levels.getD id 0))
        (resetForBuild dim M efc metric data)) n (levels.getD n 0)
      (by rw [ihn.2.1]; omega) ihn.1
    exact ⟨hins.1, hins.2.1.trans ihn.2.1, hins.2.2.trans ihn.2.2⟩

theorem build_degree_cap (sqrtFn : ℚ → ℚ) (dim M efc : ℕ)
    (metric : DistanceMetric) (data : List Vec) (levels : List ℕ) (i l : ℕ) :
    (nbrsAt (buildHNSW sqrtFn dim M efc metric data levels) i l).length ≤
      layerCap M l := by
  have h := buildFold sqrtFn dim M efc metric data levels data.length (le_refl _)
  have hc := h.1.1 i l
  rw [h.2.2] at hc
  exact hc

/-- C3 (amended): after a *serial* build, every node at every layer
satisfies the degree cap `2M` at layer 0 and `M` above, and each
neighbour-side symmetric update of the serial inserter re-prunes the
touched adjacency list back under the cap.  The original claim also
asserted the cap after `build_parallel`; that part is refuted by
`C3_parallel_insert_violates_degree_cap` below, because
`insert_node_parallel` appends the freshly selected neighbours to the
new node's own list without a prune, so a concurrent insertion that has
already linked back to the new node pushes that list over the cap. -/
theorem C3_degree_cap_after_serial_build :
    (∀ (sqrtFn : ℚ → ℚ) (dim M efc : ℕ) (metric : DistanceMetric)
      (data : List Vec) (levels : List ℕ) (i l : ℕ),
      (nbrsAt (buildHNSW sqrtFn dim M efc metric data levels) i l).length ≤
        layerCap M l) ∧
    (∀ (sqrtFn : ℚ → ℚ) (g : HNSW) (id l nb : ℕ),
      (nbrsAt (neighborSymmetricUpdate sqrtFn g id l nb) nb l).length ≤
        layerCap g.M l) :=
  ⟨fun sqrtFn dim M efc metric data levels i l =>
    build_degree_cap sqrtFn dim M efc metric data levels i l,
   fun sqrtFn g id l nb => neighborUpdate_cap sqrtFn g id l nb⟩

set_option maxHeartbeats 1000000 in
/-- C3 counterexample for the `build_parallel` half: with `M = 1`
(layer-0 cap 2), five 1-D points and a legal interleaving in which
worker A (node 3, level 1) computes its layer-0 neighbour selection,
then worker C completely inserts node 4 (which links node 4 back into
node 3's empty layer-0 list), and then A appends its selection without
a prune, node 3 ends with three layer-0 neighbours `[4, 2, 1]`.  The
same insertion run without interruption yields `[2, 1]`, inside the
cap. -/
theorem C3_parallel_insert_violates_degree_cap :
    layerCap cexGF.M 0 < (nbrsAt cexGF 3 0).length ∧
    nbrsAt cexGF 3 0 = [4, 2, 1] ∧
    cexGF.M = 1 ∧
    cexGA1.entry_point = 0 ∧ cexGA1.max_layer = 1 ∧
    nbrsAt (parInsert (fun q => q) cexG2 3 1) 3 0 = [2, 1] := by
  decide

end Spec2Proof
